import Mathlib

/-!
# Verification of the pragmatic mesh-adaptation core

Shallow embedding of the Surface / Coarsen (src/include/Surface.h) and
Smooth3D (src/include/Smooth3D.h) components.  Machine doubles are modelled
by exact rationals (and by reals where a square root is taken); C++
standard containers are modelled by lists and finsets; the iteration order
of an ordered std container is the ascending order of the data that backs
the corresponding list parameter.  Classes whose code is not in the
repository snapshot (Mesh.h, ElementProperty.h, Colour.h, the Eigen solver)
are modelled from the specification; every such definition carries a doc
comment starting with "Modelled from the spec:".
-/

namespace Pragmatic

/-! ## Surface data model

The surface state after classification: the facet list `SENList` together
with the per-facet coplanar patch id, as used by `Surface::is_collapsible`.
A facet is the pair of its vertex list and its coplanar id. -/

structure SurfaceData where
  facets : List (List ℕ × ℕ)

/-- The set of coplanar patch ids incident to a vertex:
`incident_plane` of `Surface::is_collapsible` / `is_corner_vertex`
(src/include/Surface.h lines 78-100), i.e. the ids of the facets whose
vertex list contains `v` (`SNEList` composed with `coplanar_ids`). -/

def planesOf (S : SurfaceData) (v : ℕ) : Finset ℕ :=
  ((S.facets.filter (fun f => v ∈ f.1)).map Prod.snd).toFinset

/-- `surface_nodes`: vertices appearing in at least one facet
(src/include/Surface.h lines 230-233). -/

def surfaceNodes (S : SurfaceData) : Finset ℕ :=
  S.facets.foldr (fun f acc => f.1.toFinset ∪ acc) ∅

def is_corner_vertex (S : SurfaceData) (ndims : ℕ) (v : ℕ) : Bool :=
  ndims ≤ (planesOf S v).card

/-- `Surface::is_collapsible` (src/include/Surface.h lines 85-115).
`std::set` iterators give `begin` = least and `rbegin` = greatest element,
so the two membership tests of the size-2 branch test the minimum and the
maximum of `incident_plane_free`; in the remaining branch the set is a
singleton (the code asserts `size()==1`), whose `begin` is the minimum.
On the reachable branches `incident_plane_free` is nonempty, so the 0
defaults of `untop'`/`unbot'` are never used. -/

def is_collapsible (S : SurfaceData) (ndims : ℕ)
    (nid_free nid_target : ℕ) : Bool :=
  if nid_free ∈ surfaceNodes S then
    if ndims ≤ (planesOf S nid_free).card then false
    else if (planesOf S nid_free).card = 2 then
      decide ((planesOf S nid_free).min.untop' 0 ∈ planesOf S nid_target)
        && decide ((planesOf S nid_free).max.unbot' 0 ∈ planesOf S nid_target)
    else
      decide ((planesOf S nid_free).min.untop' 0 ∈ planesOf S nid_target)
  else true

def witnessSurface : SurfaceData :=
  ⟨[([0, 1, 2], 1), ([1, 3, 2], 1), ([0, 2, 4], 2)]⟩

noncomputable def normal2dNx (x0 y0 x1 y1 : ℝ) : ℝ :=
  if y1 - y0 = 0 ∨ 1 - ((x1 - x0) / (y1 - y0)) ^ 2 < 0 then 0
  else Real.sqrt (1 - ((x1 - x0) / (y1 - y0)) ^ 2)

/-- The y component before orientation: 1 on the NaN fallback path, else
`sqrt(1 - nx^2)`. -/

noncomputable def normal2dNy (x0 y0 x1 y1 : ℝ) : ℝ :=
  if y1 - y0 = 0 ∨ 1 - ((x1 - x0) / (y1 - y0)) ^ 2 < 0 then 1
  else Real.sqrt (1 - normal2dNx x0 y0 x1 y1 ^ 2)

/-- Embeds the 2D normal computation of `Surface::calculate_coplanar_ids`
(src/include/Surface.h lines 242-258) for the facet with endpoints
`(x0, y0)` and `(x1, y1)`.  Doubles are modelled by reals; the x component
is negated when `y1 - y0 > 0` and the y component when `x0 - x1 > 0`. -/

noncomputable def normal2d (x0 y0 x1 y1 : ℝ) : ℝ × ℝ :=
  ((if 0 < y1 - y0 then -normal2dNx x0 y0 x1 y1 else normal2dNx x0 y0 x1 y1),
   (if 0 < x0 - x1 then -normal2dNy x0 y0 x1 y1 else normal2dNy x0 y0 x1 y1))

def dotQ (a b : List ℚ) : ℚ :=
  (a.zip b).foldr (fun p acc => p.1 * p.2 + acc) 0

/-- State of the patch flood fill: the per-facet `coplanar_ids` vector and
the `front` (a `std::set<int>`, modelled as a sorted duplicate-free list
whose head is `*front.begin()`). -/

structure FloodState where
  ids : List ℕ
  front : List ℕ

/-- Ordered insertion into the sorted front (a `std::set<int>::insert`). -/

def frontInsert (x : ℕ) : List ℕ → List ℕ
  | [] => [x]
  | y :: ys =>
    if x < y then x :: y :: ys
    else if x = y then y :: ys
    else y :: frontInsert x ys

/-- One neighbour test of the flood fill (src/include/Surface.h lines
349-362): a neighbour `sele2` whose id is still 0 receives the current id
and joins the front exactly when the dot product of the patch's reference
normal with the neighbour's normal is at least the coplanar tolerance. -/

def processNeighbour (normals : List (List ℚ)) (tol : ℚ) (ref : List ℚ)
    (cid : ℕ) (st : FloodState) (sele2 : ℕ) : FloodState :=
  if 0 < st.ids.getD sele2 0 then st
  else if tol ≤ dotQ ref (normals.getD sele2 []) then
    { ids := st.ids.set sele2 cid, front := frontInsert sele2 st.front }
  else st

/-- Processing one facet popped from the front: its `snloc` `EEList`
neighbours are examined in turn. -/

def processFacet (EEList : List (List ℕ)) (normals : List (List ℚ))
    (tol : ℚ) (ref : List ℚ) (cid : ℕ) (st : FloodState) (sele : ℕ) :
    FloodState :=
  (EEList.getD sele []).foldl (processNeighbour normals tol ref cid) st

/-- The breadth-first advance of one patch front (the `while(!front.empty())`
loop), on the front and ids lists.  The code terminates because every facet
enters the front at most once; a fuel argument makes this explicit. -/

def advanceFront (EEList : List (List ℕ)) (normals : List (List ℚ))
    (tol : ℚ) (ref : List ℚ) (cid : ℕ) : ℕ → List ℕ → List ℕ → List ℕ
  | 0, _, ids => ids
  | _ + 1, [], ids => ids
  | fuel + 1, sele :: rest, ids =>
    advanceFront EEList normals tol ref cid fuel
      (processFacet EEList normals tol ref cid ⟨ids, rest⟩ sele).front
      (processFacet EEList normals tol ref cid ⟨ids, rest⟩ sele).ids

/-- Linear scan for the next index whose id is still 0, with an explicit
iteration count. -/

def findSeedAux (ids : List ℕ) : ℕ → ℕ → Option ℕ
  | 0, _ => none
  | k + 1, i => if ids.getD i 0 = 0 then some i else findSeedAux ids k (i + 1)

/-- First facet index at or after `pos` whose coplanar id is still 0
(the seed scan of src/include/Surface.h lines 326-335). -/

def findSeed (ids : List ℕ) (pos : ℕ) : Option ℕ :=
  findSeedAux ids (ids.length - pos) pos

/-- The outer patch loop of `Surface::calculate_coplanar_ids`
(src/include/Surface.h lines 323-366): pick the next seed, assign the
running id, flood the patch from it with the seed's normal as reference,
then advance the id counter. -/

def formPatches (EEList : List (List ℕ)) (normals : List (List ℚ))
    (tol : ℚ) : ℕ → ℕ → ℕ → List ℕ → List ℕ
  | 0, _, _, ids => ids
  | fuel + 1, pos, cid, ids =>
    match findSeed ids pos with
    | none => ids
    | some i =>
      formPatches EEList normals tol fuel (i + 1) (cid + 1)
        (advanceFront EEList normals tol (normals.getD i []) cid
          ((ids.length + 1) * (ids.length + 1)) [i] (ids.set i cid))

/-- Patch formation of `Surface::calculate_coplanar_ids` given the surface
adjacency `EEList` and the facet normals; all ids start at 0 and the
counter at 1. -/

def calculate_coplanar_ids (EEList : List (List ℕ))
    (normals : List (List ℚ)) (tol : ℚ) : List ℕ :=
  formPatches EEList normals tol EEList.length 0 1
    (List.replicate EEList.length 0)

/-- The default coplanar tolerance set by the `Surface` constructor
(src/include/Surface.h line 62). -/

def COPLANAR_MAGIC_NUMBER : ℚ := 9999999 / 10000000

/-- Three consecutive boundary facets of an open 2D polyline: facet 0 is
adjacent to facet 1, facet 1 to facets 0 and 2 (EEList as built by the
code, with the zero-initialised entries of boundary-end nodes). -/

def ee7 : List (List ℕ) := [[0, 1], [0, 2], [1, 0]]

/-- Unit normals (exact rational points of the unit circle) of the three
facets: n0 = (1,0), n1 and n2 tilted by about 4e-4 and 8e-4 radians, so
that consecutive normals pass the 0.9999999 tolerance but n0 and n2 do
not. -/

def normals7 : List (List ℚ) :=
  [[1, 0],
   [24999999 / 25000001, 10000 / 25000001],
   [6249999 / 6250001, 5000 / 6250001]]

/-- C7 (counterexample): with the facets of `ee7` and the normals of
`normals7`, facet 2's normal is within tolerance of its neighbour facet 1's
normal, and facet 2 still has id 0 when facet 1 is processed, yet the flood
fill leaves facet 2 out of patch 1 (it compares against the reference
normal of facet 0, the patch seed, not against the current facet's
normal), so the facets end up as [1, 1, 2]. -/

structure CMesh where
  ndims : ℕ
  coords : ℕ → List ℚ
  NNList : ℕ → List ℕ
  NEList : ℕ → List ℕ
  elemVerts : ℕ → List ℕ
  recvHalo : ℕ → Bool
  owned : ℕ → Bool
  edgeLength : ℕ → ℕ → ℚ
  surf : SurfaceData

/-- Modelled from the spec: `ElementProperty::area` (ElementProperty.h is
not in the repository snapshot) - the signed area of a 2D triangle. -/

def signedArea (a b c : List ℚ) : ℚ :=
  ((b.getD 0 0 - a.getD 0 0) * (c.getD 1 0 - a.getD 1 0)
    - (b.getD 1 0 - a.getD 1 0) * (c.getD 0 0 - a.getD 0 0)) / 2

/-- Modelled from the spec: `ElementProperty::volume` (ElementProperty.h is
not in the repository snapshot) - the signed volume of a 3D tetrahedron. -/

def signedVolume (a b c d : List ℚ) : ℚ :=
  ((b.getD 0 0 - a.getD 0 0)
      * ((c.getD 1 0 - a.getD 1 0) * (d.getD 2 0 - a.getD 2 0)
        - (c.getD 2 0 - a.getD 2 0) * (d.getD 1 0 - a.getD 1 0))
    - (b.getD 1 0 - a.getD 1 0)
      * ((c.getD 0 0 - a.getD 0 0) * (d.getD 2 0 - a.getD 2 0)
        - (c.getD 2 0 - a.getD 2 0) * (d.getD 0 0 - a.getD 0 0))
    + (b.getD 2 0 - a.getD 2 0)
      * ((c.getD 0 0 - a.getD 0 0) * (d.getD 1 0 - a.getD 1 0)
        - (c.getD 1 0 - a.getD 1 0) * (d.getD 0 0 - a.getD 0 0))) / 6

/-- Signed measure of an element given its vertex list: area in 2D,
volume in 3D, as chosen by the `ndims==2` branch of the kernel
(src/include/Surface.h lines 1007-1025). -/

def elemVolume (m : CMesh) (vs : List ℕ) : ℚ :=
  if m.ndims = 2 then
    signedArea (m.coords (vs.getD 0 0)) (m.coords (vs.getD 1 0))
      (m.coords (vs.getD 2 0))
  else
    signedVolume (m.coords (vs.getD 0 0)) (m.coords (vs.getD 1 0))
      (m.coords (vs.getD 2 0)) (m.coords (vs.getD 3 0))

/-- The proposed element: every occurrence of `rm_vertex` replaced by
`target_vertex` (src/include/Surface.h lines 995-1003). -/

def substVerts (rm target : ℕ) (vs : List ℕ) : List ℕ :=
  vs.map (fun n => if n = rm then target else n)

/-- The per-candidate acceptance check of `coarsen_identify_kernel`
(src/include/Surface.h lines 988-1046): the candidate survives when no
rewritten element has `volume/orig_volume <= 1.0e-3` and no new edge
exceeds `L_max`.  The `adjacent_elements` of the candidate edge are
modelled from the spec (invariant I3): the elements whose vertex list
contains both endpoints, which for an element of `NEList[rm_vertex]` means
containing `target_vertex`.  `calc_edge_length` recomputes a metric length
(Mesh.h is not in the repository snapshot) and is passed as a function. -/

def checkCandidate (m : CMesh) (calcLength : ℕ → ℕ → ℚ)
    (rm target : ℕ) (Lmax : ℚ) : Bool :=
  ((m.NEList rm).all (fun e =>
    if target ∈ m.elemVerts e then true
    else decide (1 / 1000
      < elemVolume m (substVerts rm target (m.elemVerts e))
          / elemVolume m (m.elemVerts e))))
  && ((m.NNList rm).all (fun u =>
    if u = target then true else decide (calcLength target u ≤ Lmax)))

/-- Ordered insertion into the length-sorted candidate list.  A
`std::multimap` insert places an entry after all entries of equal key, so
equal lengths keep insertion order. -/

def insertByLen (x : ℚ × ℕ) : List (ℚ × ℕ) → List (ℚ × ℕ)
  | [] => [x]
  | y :: ys => if x.1 < y.1 then x :: y :: ys else y :: insertByLen x ys

/-- The `short_edges` multimap of `coarsen_identify_kernel`
(src/include/Surface.h lines 955-972): neighbours of `rm_vertex` that are
not in the receive halo, pass `Surface::is_collapsible`, and whose cached
edge length is strictly below `L_low`, keyed by that cached length. -/

def shortEdges (m : CMesh) (rm : ℕ) (Llow : ℚ) : List (ℚ × ℕ) :=
  (m.NNList rm).foldl (fun acc nn =>
    if m.recvHalo nn then acc
    else if ¬ is_collapsible m.surf m.ndims rm nn then acc
    else if m.edgeLength rm nn < Llow then
      insertByLen (m.edgeLength rm nn, nn) acc
    else acc) []

/-- The `while(short_edges.size())` loop of `coarsen_identify_kernel`:
try candidates in list order; return the first that passes
`checkCandidate`, -4 if the last tried candidate was rejected, -1 if
there was no candidate at all. -/

def tryCandidates (m : CMesh) (calcLength : ℕ → ℕ → ℚ) (rm : ℕ)
    (Lmax : ℚ) : List (ℚ × ℕ) → ℤ
  | [] => -1
  | c :: rest =>
    if checkCandidate m calcLength rm c.2 Lmax then (c.2 : ℤ)
    else if rest.isEmpty then -4
    else tryCandidates m calcLength rm Lmax rest

/-- `Coarsen::coarsen_identify_kernel` (src/include/Surface.h lines
946-1054): -2 for a surface corner, -3 for a non-owned vertex, otherwise
the first acceptable collapse target among the short edges in ascending
length order (a negative sentinel if none is acceptable). -/

def coarsen_identify_kernel (m : CMesh) (calcLength : ℕ → ℕ → ℚ)
    (rm : ℕ) (Llow Lmax : ℚ) : ℤ :=
  if is_corner_vertex m.surf m.ndims rm then -2
  else if ¬ m.owned rm then -3
  else tryCandidates m calcLength rm Lmax (shortEdges m rm Llow)

/-- C1: a candidate target is rejected whenever some element incident to
`rm_vertex` that does not contain the target (one that would be rewritten,
not deleted) has a substituted-to-original signed volume ratio of at most
10^-3. -/

def c1Mesh : CMesh where
  ndims := 2
  coords := fun v =>
    if v = 0 then [0, 0]
    else if v = 1 then [1, 1]
    else if v = 2 then [1, 0]
    else if v = 3 then [0, 1]
    else [0, 0]
  NNList := fun v => if v = 0 then [1, 2, 3] else []
  NEList := fun v => if v = 0 then [0] else []
  elemVerts := fun e => if e = 0 then [0, 2, 3] else []
  recvHalo := fun _ => false
  owned := fun _ => true
  edgeLength := fun _ _ => 1
  surf := ⟨[]⟩

abbrev Vec3 := ℚ × ℚ × ℚ

/-- A metric tensor in packed 6-entry storage. -/

abbrev Met6 := List ℚ

/-- The mesh topology and constants read by `Smooth3D` (Mesh.h is not in
the repository snapshot; its accessors are modelled from the spec).
`boundaryFlag i j` is `boundary[i*4+j]`. -/

structure SMesh where
  NNodes : ℕ
  NElements : ℕ
  elemVerts : ℕ → ℕ × ℕ × ℕ × ℕ
  elemLive : ℕ → Bool
  NEList : ℕ → List ℕ
  NNList : ℕ → List ℕ
  owned : ℕ → Bool
  boundaryFlag : ℕ → ℕ → ℤ

/-- The mutable smoother state: vertex coordinates and metrics of the mesh,
the per-element quality cache, the active-vertex flags, and `good_q`. -/

structure SState where
  coords : ℕ → Vec3
  metric : ℕ → Met6
  quality : ℕ → ℚ
  active : ℕ → Bool
  good_q : ℚ

/-- Modelled from the spec: the geometric kernels missing from the
repository snapshot. `lip` is `ElementProperty::lipnikov` (a quality in
(0,1] from coordinates and metrics of the four vertices), `lipGrad` is
`ElementProperty::lipnikov_grad` (gradient with respect to the vertex at
local position `loc`), `propose` is the Eigen SVD solve of the metric
Laplacian system of `laplacian_3d_kernel(node, p)`, and `unitVec` is the
normalisation `s = g/|g|` of the Linf kernel. -/

structure Geom where
  lip : Vec3 → Vec3 → Vec3 → Vec3 → Met6 → Met6 → Met6 → Met6 → ℚ
  lipGrad : ℕ → Vec3 → Vec3 → Vec3 → Vec3 → Met6 → Vec3
  propose : SMesh → (ℕ → Vec3) → (ℕ → Met6) → ℕ → Vec3
  unitVec : Vec3 → Vec3

/-- Modelled from the spec: `ElementProperty::volume` on rational triples -
the signed volume of the tetrahedron `(a, b, c, d)`. -/

def tetVolume (a b c d : Vec3) : ℚ :=
  ((b.1 - a.1) * ((c.2.1 - a.2.1) * (d.2.2 - a.2.2)
      - (c.2.2 - a.2.2) * (d.2.1 - a.2.1))
    - (b.2.1 - a.2.1) * ((c.1 - a.1) * (d.2.2 - a.2.2)
      - (c.2.2 - a.2.2) * (d.1 - a.1))
    + (b.2.2 - a.2.2) * ((c.1 - a.1) * (d.2.1 - a.2.1)
      - (c.2.1 - a.2.1) * (d.1 - a.1))) / 6

/-- The inversion test volume of `generate_location_3d`
(src/include/Smooth3D.h lines 686-697): the volume of element `e` with the
vertex slot holding `node` (the last slot if `node` is not among the first
three) moved to `p`. -/

def substVolume (msh : SMesh) (coords : ℕ → Vec3) (e node : ℕ)
    (p : Vec3) : ℚ :=
  let n := msh.elemVerts e
  if n.1 = node then
    tetVolume p (coords n.2.1) (coords n.2.2.1) (coords n.2.2.2)
  else if n.2.1 = node then
    tetVolume (coords n.1) p (coords n.2.2.1) (coords n.2.2.2)
  else if n.2.2.1 = node then
    tetVolume (coords n.1) (coords n.2.1) p (coords n.2.2.2)
  else
    tetVolume (coords n.1) (coords n.2.1) (coords n.2.2.1) p

/-- The best-element scan of `generate_location_3d` (src/include/Smooth3D.h
lines 677-723): walk the incident elements, abort (`return false`) as soon
as one has a negative substituted volume, and otherwise keep the element
maximising the minimum barycentric coordinate (strict improvement only, so
ties keep the earlier element).  The accumulator holds `tol`, the four
barycentric weights `l`, and `best_e`. -/

def genLocLoop (msh : SMesh) (coords : ℕ → Vec3) (node : ℕ) (p : Vec3) :
    List ℕ → Option (ℚ × (ℚ × ℚ × ℚ × ℚ) × ℕ)
      → Option (Option (ℚ × (ℚ × ℚ × ℚ × ℚ) × ℕ))
  | [], best => some best
  | e :: rest, best =>
    if substVolume msh coords e node p < 0 then none
    else
      let n := msh.elemVerts e
      let L := tetVolume (coords n.1) (coords n.2.1) (coords n.2.2.1)
        (coords n.2.2.2)
      let l0 := tetVolume p (coords n.2.1) (coords n.2.2.1) (coords n.2.2.2) / L
      let l1 := tetVolume (coords n.1) p (coords n.2.2.1) (coords n.2.2.2) / L
      let l2 := tetVolume (coords n.1) (coords n.2.1) p (coords n.2.2.2) / L
      let l3 := tetVolume (coords n.1) (coords n.2.1) (coords n.2.2.1) p / L
      let minl := min (min l0 l1) (min l2 l3)
      match best with
      | none => genLocLoop msh coords node p rest (some (minl, (l0, l1, l2, l3), e))
      | some (tol, l, be) =>
        if tol < minl then
          genLocLoop msh coords node p rest (some (minl, (l0, l1, l2, l3), e))
        else genLocLoop msh coords node p rest (some (tol, l, be))

/-- The barycentric metric interpolation at the end of
`generate_location_3d` (src/include/Smooth3D.h lines 730-735). -/

def interpMetric (metric : ℕ → Met6) (n : ℕ × ℕ × ℕ × ℕ)
    (l : ℚ × ℚ × ℚ × ℚ) : Met6 :=
  (List.range 6).map (fun i =>
    l.1 * (metric n.1).getD i 0 + l.2.1 * (metric n.2.1).getD i 0
    + l.2.2.1 * (metric n.2.2.1).getD i 0
    + l.2.2.2 * (metric n.2.2.2).getD i 0)

/-- `Smooth3D::generate_location_3d` (src/include/Smooth3D.h lines
671-738): `none` models `return false`.  An empty incident-element list
would trip `assert(best_e != -1)`; it is modelled as failure. -/

def generate_location_3d (msh : SMesh) (coords : ℕ → Vec3)
    (metric : ℕ → Met6) (node : ℕ) (p : Vec3) : Option Met6 :=
  match genLocLoop msh coords node p (msh.NEList node) none with
  | none => none
  | some none => none
  | some (some (_, l, be)) => some (interpMetric metric (msh.elemVerts be) l)

/-- Commit of a successful kernel: the node's coordinates and metric are
overwritten, everything else is untouched. -/

def commitMove (st : SState) (node : ℕ) (p : Vec3) (mp : Met6) : SState :=
  { st with
    coords := fun v => if v = node then p else st.coords v,
    metric := fun v => if v = node then mp else st.metric v }

/-- `Smooth3D::laplacian_3d_kernel(index_t)` (src/include/Smooth3D.h lines
198-216) for a given proposed position `p` (the inner
`laplacian_3d_kernel(node, p)` always returns true; the Eigen solve that
computes `p` is the `Geom.propose` oracle): commit `p` and the interpolated
metric unless `generate_location_3d` fails. -/

def laplacian_kernel_at (msh : SMesh) (st : SState) (node : ℕ)
    (p : Vec3) : Bool × SState :=
  match generate_location_3d msh st.coords st.metric node p with
  | none => (false, st)
  | some mp => (true, commitMove st node p mp)

/-- The Laplacian kernel with the proposal oracle plugged in. -/

def laplacian_3d_kernel (G : Geom) (msh : SMesh) (st : SState)
    (node : ℕ) : Bool × SState :=
  laplacian_kernel_at msh st node (G.propose msh st.coords st.metric node)

def c4Mesh : SMesh where
  NNodes := 4
  NElements := 2
  elemVerts := fun e =>
    if e = 0 then (0, 1, 2, 3) else if e = 1 then (0, 2, 1, 3) else (0, 0, 0, 0)
  elemLive := fun _ => true
  NEList := fun v => if v = 0 then [0, 1] else []
  NNList := fun v => if v = 0 then [1, 2, 3] else []
  owned := fun _ => true
  boundaryFlag := fun _ _ => 0

/-- Concrete state for C4: the unit tetrahedron corner positions and a
uniform identity metric. -/

def c4State : SState where
  coords := fun v =>
    if v = 0 then (0, 0, 0)
    else if v = 1 then (1, 0, 0)
    else if v = 2 then (0, 1, 0)
    else if v = 3 then (0, 0, 1)
    else (0, 0, 0)
  metric := fun _ => [1, 0, 0, 1, 0, 1]
  quality := fun _ => 1
  active := fun _ => false
  good_q := 1

def epsilonQ : ℚ := 1 / 1000000

/-- Minimum of `f` over a list, folded left from `DBL_MAX` (modelled by
`none` so that the first element always wins, as any double is below
`DBL_MAX`). -/

def listMinQ (f : ℕ → ℚ) (l : List ℕ) : Option ℚ :=
  l.foldl (fun acc e =>
    match acc with
    | none => some (f e)
    | some q => some (min q (f e))) none

/-- The other three vertices of an element as seen from `node`, in the
order produced by the `switch(loc)` blocks of src/include/Smooth3D.h
(lines 632-653 and the identical blocks elsewhere); when `node` is not
among the first three vertices the `loc=3` rotation is used (the code
leaves `loc=4` values uninitialised in that impossible case). -/

def othersOf (n : ℕ × ℕ × ℕ × ℕ) (node : ℕ) : ℕ × ℕ × ℕ :=
  if n.1 = node then (n.2.1, n.2.2.1, n.2.2.2)
  else if n.2.1 = node then (n.2.2.1, n.1, n.2.2.2)
  else if n.2.2.1 = node then (n.1, n.2.1, n.2.2.2)
  else (n.1, n.2.2.1, n.2.1)

/-- The local position `loc` of `node` within an element (4 when absent,
matching the fallthrough of the lookup loop). -/

def locOf (n : ℕ × ℕ × ℕ × ℕ) (node : ℕ) : ℕ :=
  if n.1 = node then 0
  else if n.2.1 = node then 1
  else if n.2.2.1 = node then 2
  else if n.2.2.2 = node then 3
  else 4

/-- Quality of element `e` evaluated with `node` moved to `p` and given
metric `mp` (the loop body of `functional_Linf(n0, p, mp)`,
src/include/Smooth3D.h lines 622-669). -/

def lipMoved (G : Geom) (msh : SMesh) (coords : ℕ → Vec3)
    (metric : ℕ → Met6) (e node : ℕ) (p : Vec3) (mp : Met6) : ℚ :=
  G.lip p (coords (othersOf (msh.elemVerts e) node).1)
    (coords (othersOf (msh.elemVerts e) node).2.1)
    (coords (othersOf (msh.elemVerts e) node).2.2)
    mp (metric (othersOf (msh.elemVerts e) node).1)
    (metric (othersOf (msh.elemVerts e) node).2.1)
    (metric (othersOf (msh.elemVerts e) node).2.2)

/-- `Smooth3D::functional_Linf(n0, p, mp)` (src/include/Smooth3D.h lines
622-669): minimum moved quality over the incident elements; `none` models
the untouched `DBL_MAX` of an empty incident list. -/

def functional_Linf_at (G : Geom) (msh : SMesh) (coords : ℕ → Vec3)
    (metric : ℕ → Met6) (node : ℕ) (p : Vec3) (mp : Met6) : Option ℚ :=
  listMinQ (fun e => lipMoved G msh coords metric e node p mp)
    (msh.NEList node)

/-- Quality of element `e` in vertex order, as recomputed by the quality
cache (`update_quality` and the stale-entry branch of
`functional_Linf(node)`). -/

def lipOfElem (G : Geom) (msh : SMesh) (coords : ℕ → Vec3)
    (metric : ℕ → Met6) (e : ℕ) : ℚ :=
  G.lip (coords (msh.elemVerts e).1) (coords (msh.elemVerts e).2.1)
    (coords (msh.elemVerts e).2.2.1) (coords (msh.elemVerts e).2.2.2)
    (metric (msh.elemVerts e).1) (metric (msh.elemVerts e).2.1)
    (metric (msh.elemVerts e).2.2.1) (metric (msh.elemVerts e).2.2.2)

/-- One step of `Smooth3D::functional_Linf(node)` (src/include/Smooth3D.h
lines 597-620): a stale cache entry (negative) is recomputed and written
back, then the running minimum is updated. -/

def linfCachedStep (G : Geom) (msh : SMesh) (coords : ℕ → Vec3)
    (metric : ℕ → Met6) (acc : Option ℚ × (ℕ → ℚ)) (e : ℕ) :
    Option ℚ × (ℕ → ℚ) :=
  if acc.2 e < 0 then
    (match acc.1 with
      | none => some (lipOfElem G msh coords metric e)
      | some q => some (min q (lipOfElem G msh coords metric e)),
     fun x => if x = e then lipOfElem G msh coords metric e else acc.2 x)
  else
    (match acc.1 with
      | none => some (acc.2 e)
      | some q => some (min q (acc.2 e)),
     acc.2)

/-- `Smooth3D::functional_Linf(node)`: the cached minimum quality over the
incident elements together with the refreshed cache. -/

def functional_Linf_cached (G : Geom) (msh : SMesh) (coords : ℕ → Vec3)
    (metric : ℕ → Met6) (quality : ℕ → ℚ) (node : ℕ) :
    Option ℚ × (ℕ → ℚ) :=
  (msh.NEList node).foldl (linfCachedStep G msh coords metric)
    (none, quality)

/-- Refresh of the quality cache for the elements incident to a moved
vertex (`update_quality` calls at src/include/Smooth3D.h lines 282-285),
evaluated at the committed coordinates and metrics. -/

def refreshQuality (G : Geom) (msh : SMesh) (coords : ℕ → Vec3)
    (metric : ℕ → Met6) (quality : ℕ → ℚ) (es : List ℕ) : ℕ → ℚ :=
  es.foldl (fun qf e =>
    fun x => if x = e then lipOfElem G msh coords metric e else qf x) quality

/-- `Smooth3D::smart_laplacian_3d_kernel` (src/include/Smooth3D.h lines
260-288): propose, interpolate the metric, and accept only when the moved
Linf functional beats the cached one by at least `epsilon_q` (the code
rejects on `functional - functional_orig < epsilon_q`); on acceptance the
coordinates, metric and incident quality-cache entries are committed.  The
cache refreshes of the stale-entry scan persist even on rejection. -/

def smart_laplacian_3d_kernel (G : Geom) (msh : SMesh) (st : SState)
    (node : ℕ) : Bool × SState :=
  match generate_location_3d msh st.coords st.metric node
    (G.propose msh st.coords st.metric node) with
  | none => (false, st)
  | some mp =>
    match functional_Linf_at G msh st.coords st.metric node
        (G.propose msh st.coords st.metric node) mp,
      functional_Linf_cached G msh st.coords st.metric st.quality node with
    | some fc, (some fo, q1) =>
      if fc - fo < epsilonQ then (false, { st with quality := q1 })
      else
        (true,
          { coords := fun v => if v = node then
              G.propose msh st.coords st.metric node else st.coords v,
            metric := fun v => if v = node then mp else st.metric v,
            quality := refreshQuality G msh
              (fun v => if v = node then
                G.propose msh st.coords st.metric node else st.coords v)
              (fun v => if v = node then mp else st.metric v)
              q1 (msh.NEList node),
            active := st.active,
            good_q := st.good_q })
    | _, (_, q1) => (false, { st with quality := q1 })

/-- C5 (amended): when the metric interpolation succeeds and the vertex has
incident elements, the smart-Laplacian kernel accepts — committing the
proposed coordinates and metric and refreshing the incident quality cache —
exactly when the moved Linf functional exceeds the cached one by AT LEAST
`epsilon_q` (the code rejects only on a strictly smaller difference, so a
difference of exactly `epsilon_q` is accepted); on rejection the
coordinates and metric are unchanged. -/

def c5Mesh : SMesh where
  NNodes := 4
  NElements := 1
  elemVerts := fun _ => (0, 1, 2, 3)
  elemLive := fun _ => true
  NEList := fun v => if v = 0 then [0] else []
  NNList := fun v => if v = 0 then [1, 2, 3] else []
  owned := fun _ => true
  boundaryFlag := fun _ _ => 0

/-- Concrete state for C5: the unit tetrahedron with a cached quality of
1/2 for its one element. -/

def c5State : SState where
  coords := fun v =>
    if v = 0 then (0, 0, 0)
    else if v = 1 then (1, 0, 0)
    else if v = 2 then (0, 1, 0)
    else if v = 3 then (0, 0, 1)
    else (0, 0, 0)
  metric := fun _ => [1, 0, 0, 1, 0, 1]
  quality := fun _ => 1 / 2
  active := fun _ => false
  good_q := 1

/-- Concrete oracle for C5: the proposal moves vertex 0 to
(1/10, 1/10, 1/10) (inside the tetrahedron, so the interpolation
succeeds), and the quality at the moved position is better than the cached
quality by exactly `epsilon_q`. -/

def c5G : Geom where
  lip := fun x0 _ _ _ _ _ _ _ =>
    if x0 = ((1 : ℚ) / 10, (1 : ℚ) / 10, (1 : ℚ) / 10) then 1 / 2 + 1 / 1000000
    else 1 / 2
  lipGrad := fun _ _ _ _ _ _ => (0, 0, 0)
  propose := fun _ _ _ _ => (1 / 10, 1 / 10, 1 / 10)
  unitVec := fun v => v

/-- C5 (counterexample to the claim as stated): at `c5State` the moved
Linf functional exceeds the cached one by exactly `epsilon_q` — not by
strictly more — and the smart-Laplacian kernel still accepts and moves
vertex 0. -/

def initQuality (G : Geom) (msh : SMesh) (coords : ℕ → Vec3)
    (metric : ℕ → Met6) : ℕ → ℚ :=
  fun e => if msh.elemLive e then lipOfElem G msh coords metric e else 1

/-- `good_q` as computed by `Smooth3D::init_cache` (src/include/Smooth3D.h
line 580): `qsum/NElements`, where `qsum` accumulates the quality of LIVE
elements only (the deleted-element branch `continue`s before the
accumulation) while the divisor counts all elements. -/

def initGoodQ (G : Geom) (msh : SMesh) (coords : ℕ → Vec3)
    (metric : ℕ → Met6) : ℚ :=
  ((List.range msh.NElements).foldl (fun acc e =>
    if msh.elemLive e then acc + lipOfElem G msh coords metric e else acc) 0)
    / msh.NElements

/-- The worst-element scan of `optimisation_linf_3d_kernel`
(src/include/Smooth3D.h lines 296-300): the running pair starts at
`(DBL_MAX, -1)` and any finite quality beats `DBL_MAX`, modelled by a
`none` start. -/

def worstElement (quality : ℕ → ℚ) (l : List ℕ) : Option (ℚ × ℕ) :=
  l.foldl (fun acc e =>
    match acc with
    | none => some (quality e, e)
    | some (q, w) =>
      if quality e < q then some (quality e, e) else some (q, w)) none

/-- `DBL_MAX` modelled as an exact rational. -/

def DBL_MAX_Q : ℚ := 2 ^ 1023

/-- Dot product of two 3-vectors. -/

def dot3 (a b : Vec3) : ℚ := a.1 * b.1 + a.2.1 * b.2.1 + a.2.2 * b.2.2

/-- `a + s*d` componentwise. -/

def axpy (a : Vec3) (s : ℚ) (d : Vec3) : Vec3 :=
  (a.1 + s * d.1, a.2.1 + s * d.2.1, a.2.2 + s * d.2.2)

/-- One step of the bounding-box fold of `optimisation_linf_3d_kernel`
(src/include/Smooth3D.h lines 363-374), kept exactly as written in the
source: each max/min reads the entry just written (`bbox[1] =
max(bbox[0], x)` after `bbox[0]` was updated, and so on). -/

def bboxStep (coords : ℕ → Vec3) (b : ℚ × ℚ × ℚ × ℚ × ℚ × ℚ) (v : ℕ) :
    ℚ × ℚ × ℚ × ℚ × ℚ × ℚ :=
  (min b.1 (coords v).1,
   max (min b.1 (coords v).1) (coords v).1,
   min (max (min b.1 (coords v).1) (coords v).1) (coords v).2.1,
   max (max (min b.1 (coords v).1) (coords v).1) (coords v).2.1,
   min (min (max (min b.1 (coords v).1) (coords v).1) (coords v).2.1) (coords v).2.2,
   max (min (max (min b.1 (coords v).1) (coords v).1) (coords v).2.1) (coords v).2.2)

/-- The initial step length `alpha` (src/include/Smooth3D.h lines
361-376). -/

def bboxAlpha (msh : SMesh) (coords : ℕ → Vec3) (n0 : ℕ) : ℚ :=
  ((((msh.NNList n0).foldl (bboxStep coords)
      (DBL_MAX_Q, -DBL_MAX_Q, DBL_MAX_Q, -DBL_MAX_Q, DBL_MAX_Q, -DBL_MAX_Q)).2.1
    - ((msh.NNList n0).foldl (bboxStep coords)
      (DBL_MAX_Q, -DBL_MAX_Q, DBL_MAX_Q, -DBL_MAX_Q, DBL_MAX_Q, -DBL_MAX_Q)).1)
  + (((msh.NNList n0).foldl (bboxStep coords)
      (DBL_MAX_Q, -DBL_MAX_Q, DBL_MAX_Q, -DBL_MAX_Q, DBL_MAX_Q, -DBL_MAX_Q)).2.2.2.1
    - ((msh.NNList n0).foldl (bboxStep coords)
      (DBL_MAX_Q, -DBL_MAX_Q, DBL_MAX_Q, -DBL_MAX_Q, DBL_MAX_Q, -DBL_MAX_Q)).2.2.1)
  + (((msh.NNList n0).foldl (bboxStep coords)
      (DBL_MAX_Q, -DBL_MAX_Q, DBL_MAX_Q, -DBL_MAX_Q, DBL_MAX_Q, -DBL_MAX_Q)).2.2.2.2.2
    - ((msh.NNList n0).foldl (bboxStep coords)
      (DBL_MAX_Q, -DBL_MAX_Q, DBL_MAX_Q, -DBL_MAX_Q, DBL_MAX_Q, -DBL_MAX_Q)).2.2.2.2.1)) / 6

/-- The Lipnikov gradient of element `e` with respect to `n0`
(the `lipnikov_grad` calls of src/include/Smooth3D.h lines 344 and 416). -/

def gradOf (G : Geom) (msh : SMesh) (coords : ℕ → Vec3)
    (metric : ℕ → Met6) (n0 e : ℕ) : Vec3 :=
  G.lipGrad (locOf (msh.elemVerts e) n0) (coords n0)
    (coords (othersOf (msh.elemVerts e) n0).1)
    (coords (othersOf (msh.elemVerts e) n0).2.1)
    (coords (othersOf (msh.elemVerts e) n0).2.2)
    (metric n0)

/-- The step-length clamp against every other incident element
(src/include/Smooth3D.h lines 377-425): a positive predicted crossing
shrinks `alpha`. -/

def alphaStep (G : Geom) (msh : SMesh) (st : SState) (n0 we : ℕ) (q : ℚ)
    (search gradw : Vec3) (alpha : ℚ) (e : ℕ) : ℚ :=
  if e = we then alpha
  else
    if 0 < (st.quality e - q)
        / (dot3 search gradw
          - dot3 search (gradOf G msh st.coords st.metric n0 e)) then
      min alpha ((st.quality e - q)
        / (dot3 search gradw
          - dot3 search (gradOf G msh st.coords st.metric n0 e)))
    else alpha

/-- The halving line search of `optimisation_linf_3d_kernel`
(src/include/Smooth3D.h lines 427-519): up to 10 trials; each halves
`alpha`, proposes `x0 + alpha*search`, regenerates the metric (skipping on
inversion), and accepts only if every incident element's new quality
strictly exceeds the old worst `q`; acceptance commits coordinates, metric
and the per-element quality cache. -/

def linfSearch (G : Geom) (msh : SMesh) (st : SState) (n0 : ℕ) (q : ℚ)
    (search : Vec3) : ℕ → ℚ → Bool × SState
  | 0, _ => (false, st)
  | fuel + 1, alpha =>
    match generate_location_3d msh st.coords st.metric n0
      (axpy (st.coords n0) (alpha / 2) search) with
    | none => linfSearch G msh st n0 q search fuel (alpha / 2)
    | some nm =>
      if (msh.NEList n0).all (fun e => decide (q < lipMoved G msh st.coords
          st.metric e n0 (axpy (st.coords n0) (alpha / 2) search) nm)) then
        (true,
          { coords := fun v => if v = n0 then
              axpy (st.coords n0) (alpha / 2) search else st.coords v,
            metric := fun v => if v = n0 then nm else st.metric v,
            quality := (msh.NEList n0).foldl (fun qf e =>
              fun x => if x = e then lipMoved G msh st.coords st.metric e n0
                (axpy (st.coords n0) (alpha / 2) search) nm else qf x)
              st.quality,
            active := st.active,
            good_q := st.good_q })
      else linfSearch G msh st n0 q search fuel (alpha / 2)

/-- `Smooth3D::optimisation_linf_3d_kernel` (src/include/Smooth3D.h lines
291-522): find the worst incident element; return immediately with no move
when its cached quality strictly exceeds `good_q`; otherwise walk the
steepest-ascent line search. -/

def optimisation_linf_3d_kernel (G : Geom) (msh : SMesh) (st : SState)
    (n0 : ℕ) : Bool × SState :=
  match worstElement st.quality (msh.NEList n0) with
  | none => (false, st)
  | some (q, we) =>
    if st.good_q < q then (false, st)
    else
      linfSearch G msh st n0 q (G.unitVec (gradOf G msh st.coords st.metric n0 we))
        10
        ((msh.NEList n0).foldl
          (alphaStep G msh st n0 we q
            (G.unitVec (gradOf G msh st.coords st.metric n0 we))
            (gradOf G msh st.coords st.metric n0 we))
          (bboxAlpha msh st.coords n0))

def c6Mesh : SMesh where
  NNodes := 5
  NElements := 2
  elemVerts := fun _ => (0, 1, 2, 3)
  elemLive := fun e => e = 0
  NEList := fun _ => []
  NNList := fun _ => []
  owned := fun _ => true
  boundaryFlag := fun _ _ => 0

/-- Constant-quality oracle for the C6 counterexample. -/

def c6G : Geom where
  lip := fun _ _ _ _ _ _ _ _ => 1 / 2
  lipGrad := fun _ _ _ _ _ _ => (0, 0, 0)
  propose := fun _ _ _ _ => (0, 0, 0)
  unitVec := fun v => v

/-- C6 (counterexample to the claim as stated): with one live element of
quality 1/2 and one deleted element (cached as 1.0), `good_q` is 1/4 while
the arithmetic mean of the cached qualities is 3/4. -/

def c6State : SState where
  coords := c5State.coords
  metric := c5State.metric
  quality := fun _ => 1
  active := fun _ => false
  good_q := 1 / 2

def vertAt (n : ℕ × ℕ × ℕ × ℕ) (i : ℕ) : ℕ :=
  if i % 4 = 0 then n.1
  else if i % 4 = 1 then n.2.1
  else if i % 4 = 2 then n.2.2.1
  else n.2.2.2

/-- The boundary-vertex marking of `Smooth3D::init_cache`
(src/include/Smooth3D.h lines 534-547): `v` is marked when some live
element has a positive boundary flag at a face whose three remaining
vertices include `v`. -/

def is_boundary_vertex (msh : SMesh) (v : ℕ) : Bool :=
  (List.range msh.NElements).any (fun i =>
    msh.elemLive i && (List.range 4).any (fun j =>
      decide (0 < msh.boundaryFlag i j)
      && (vertAt (msh.elemVerts i) ((j + 1) % 4) = v
        || vertAt (msh.elemVerts i) ((j + 2) % 4) = v
        || vertAt (msh.elemVerts i) ((j + 3) % 4) = v)))

/-- The vertex filter of `Smooth3D::init_cache` (src/include/Smooth3D.h
lines 549-554): a vertex enters a colour set unless its colour is
negative, it is not owned, its neighbour list is empty, or it is a
boundary vertex.  The colouring is the oracle's output (Colour.h is not in
the repository snapshot). -/

def smoothEligible (msh : SMesh) (colour : ℕ → ℤ) (v : ℕ) : Bool :=
  !(decide (colour v < 0)) && msh.owned v && !(msh.NNList v).isEmpty
    && !(is_boundary_vertex msh v)

/-- The colour set `ic`: eligible vertices of that colour in index
order. -/

def colourMembers (msh : SMesh) (colour : ℕ → ℤ) (ic : ℕ) : List ℕ :=
  (List.range msh.NNodes).filter (fun i =>
    decide (colour i = (ic : ℤ)) && smoothEligible msh colour i)

/-- `colour_sets.rbegin()->first`: the largest colour of any eligible
vertex (0 when there is none, in which case the colour loop is empty; the
code dereferences `rbegin` of an empty map there). -/

def maxColour (msh : SMesh) (colour : ℕ → ℤ) : ℤ :=
  (List.range msh.NNodes).foldl (fun acc i =>
    if smoothEligible msh colour i && decide (acc < colour i) then colour i
    else acc) 0

/-- The kernel lookup of `Smooth3D::smooth` (src/include/Smooth3D.h lines
111-118): the three named kernels, any other method falling back to
"optimisation Linf". -/

def selectKernel (G : Geom) (msh : SMesh) (method : String) :
    SState → ℕ → Bool × SState :=
  if method = "Laplacian" then laplacian_3d_kernel G msh
  else if method = "smart Laplacian" then smart_laplacian_3d_kernel G msh
  else optimisation_linf_3d_kernel G msh

/-- Mark all neighbours of a moved vertex active
(src/include/Smooth3D.h lines 142-147). -/

def activateNeighbours (msh : SMesh) (st : SState) (node : ℕ) : SState :=
  { st with active := fun v =>
      if v ∈ msh.NNList node then true else st.active v }

/-- Visit of one vertex in the first sweep. -/

def processNodeFirst (kern : SState → ℕ → Bool × SState) (msh : SMesh)
    (st : SState) (node : ℕ) : SState :=
  if (kern st node).1 then activateNeighbours msh (kern st node).2 node
  else (kern st node).2

/-- Visit of one vertex in the later sweeps (src/include/Smooth3D.h lines
165-179): only active vertices are visited, their flag is reset before the
kernel runs, and a successful move reactivates the neighbours. -/

def processNodeLater (kern : SState → ℕ → Bool × SState) (msh : SMesh)
    (st : SState) (node : ℕ) : SState :=
  if st.active node then
    processNodeFirst kern msh
      { st with active := fun v => if v = node then false else st.active v }
      node
  else st

/-- One sweep: every colour set from 1 to the maximum colour in order,
its vertices in order. -/

def sweepColours (pn : SState → ℕ → SState) (msh : SMesh)
    (colour : ℕ → ℤ) (st : SState) : SState :=
  (List.range' 1 (maxColour msh colour).toNat).foldl
    (fun st2 ic => (colourMembers msh colour ic).foldl pn st2) st

/-- Iterate a sweep. -/

def smoothIterate (f : SState → SState) : ℕ → SState → SState
  | 0, st => st
  | k + 1, st => smoothIterate f k (f st)

/-- `Smooth3D::smooth` (src/include/Smooth3D.h lines 88-196), serial
single-partition case (`mpi_nparts = 1`, so the halo updates are no-ops).
`quality_tol > 0` first overwrites `good_q`, and `init_cache` then
unconditionally overwrites it again with the mean quality; the first sweep
visits every colour-set vertex and the `max_iterations - 1` later sweeps
only active vertices. -/

def smooth (G : Geom) (msh : SMesh) (colour : ℕ → ℤ) (method : String)
    (max_iterations : ℕ) (quality_tol : ℚ) (coords0 : ℕ → Vec3)
    (metric0 : ℕ → Met6) (good_q0 : ℚ) : SState :=
  smoothIterate
    (sweepColours (processNodeLater (selectKernel G msh method) msh) msh colour)
    (max_iterations - 1)
    (sweepColours (processNodeFirst (selectKernel G msh method) msh) msh colour
      { ({ coords := coords0, metric := metric0, quality := fun _ => 0,
           active := fun _ => false,
           good_q := if 0 < quality_tol then quality_tol else good_q0 } : SState)
        with
        quality := initQuality G msh coords0 metric0,
        good_q := initGoodQ G msh coords0 metric0 })

/-- C10: `quality_tol` has no effect - the `good_q` it sets is overwritten
by `init_cache` before any use, so two runs differing only in
`quality_tol` produce identical final states (coordinates, metrics,
quality cache). -/

def SkipsAt (k : SState → ℕ → Bool × SState) (v : ℕ) : Prop :=
  ∀ (st : SState) (node : ℕ), node ≠ v →
    (k st node).2.coords v = st.coords v
    ∧ (k st node).2.metric v = st.metric v

def c9Mesh : SMesh where
  NNodes := 4
  NElements := 1
  elemVerts := fun _ => (0, 1, 2, 3)
  elemLive := fun _ => true
  NEList := fun _ => [0]
  NNList := fun v => if v = 0 then [1, 2, 3] else [0]
  owned := fun v => v ≠ 0
  boundaryFlag := fun _ j => if j = 0 then 1 else 0

theorem mem_surfaceNodes (S : SurfaceData) (v : ℕ) :
    v ∈ surfaceNodes S ↔ ∃ f ∈ S.facets, v ∈ f.1 := by
  unfold surfaceNodes
  induction S.facets with
  | nil => simp
  | cons f fs ih => simp [ih]

theorem planes_nonempty_of_mem (S : SurfaceData) (v : ℕ)
    (h : v ∈ surfaceNodes S) : (planesOf S v).Nonempty := by
  rcases (mem_surfaceNodes S v).1 h with ⟨f, hf, hv⟩
  refine ⟨f.2, ?_⟩
  unfold planesOf
  simp only [List.mem_toFinset, List.mem_map, List.mem_filter]
  exact ⟨f, ⟨hf, by simpa using hv⟩, rfl⟩

theorem mem_surfaceNodes_of_planes (S : SurfaceData) (v : ℕ)
    (h : (planesOf S v).Nonempty) : v ∈ surfaceNodes S := by
  rcases h with ⟨p, hp⟩
  unfold planesOf at hp
  simp only [List.mem_toFinset, List.mem_map, List.mem_filter] at hp
  rcases hp with ⟨f, ⟨hf, hv⟩, _⟩
  exact (mem_surfaceNodes S v).2 ⟨f, hf, by simpa using hv⟩

/-- `Surface::is_corner_vertex` (src/include/Surface.h lines 77-83): a
vertex is a corner when at least `_ndims` distinct coplanar patches touch
it. -/

theorem min_untop_eq (s : Finset ℕ) (h : s.Nonempty) :
    s.min.untop' 0 = s.min' h := by
  rw [← Finset.coe_min' h]
  rfl

theorem max_unbot_eq (s : Finset ℕ) (h : s.Nonempty) :
    s.max.unbot' 0 = s.max' h := by
  rw [← Finset.coe_max' h]
  rfl

theorem subset_iff_min_max_of_card_two {s t : Finset ℕ} (hs : s.card = 2)
    (hne : s.Nonempty) :
    (s.min' hne ∈ t ∧ s.max' hne ∈ t) ↔ s ⊆ t := by
  constructor
  · rintro ⟨hmin, hmax⟩ x hx
    rcases Finset.card_eq_two.1 hs with ⟨a, b, hab, rfl⟩
    have hxa : x = a ∨ x = b := by simpa using hx
    have hmm : ({a, b} : Finset ℕ).min' hne = min a b := by
      simp [Finset.min'_insert, min_comm]
    have hMM : ({a, b} : Finset ℕ).max' hne = max a b := by
      simp [Finset.max'_insert, max_comm]
    rcases le_total a b with hab1 | hab1
    · rcases hxa with rfl | rfl
      · simpa [hmm, min_eq_left hab1] using hmin
      · simpa [hMM, max_eq_right hab1] using hmax
    · rcases hxa with rfl | rfl
      · simpa [hMM, max_eq_left hab1] using hmax
      · simpa [hmm, min_eq_right hab1] using hmin
  · intro hsub
    exact ⟨hsub (s.min'_mem hne), hsub (s.max'_mem hne)⟩

theorem subset_iff_min_of_card_one {s t : Finset ℕ} (hs : s.card = 1)
    (hne : s.Nonempty) :
    (s.min' hne ∈ t) ↔ s ⊆ t := by
  rcases Finset.card_eq_one.1 hs with ⟨a, rfl⟩
  simp [Finset.subset_iff]

/-- C3: `is_collapsible(free, target)` returns true when `free` is not a
boundary vertex; false when `free` is a corner (at least `D` incident
patches); for `D - 1` incident patches, true iff every patch of `free`
also touches `target`; for a single incident patch, true iff that patch
touches `target`. -/

theorem c3_is_collapsible_cases (S : SurfaceData) (ndims : ℕ)
    (hnd : ndims = 2 ∨ ndims = 3) (nfree ntarget : ℕ) :
    (nfree ∉ surfaceNodes S → is_collapsible S ndims nfree ntarget = true)
    ∧ (ndims ≤ (planesOf S nfree).card →
        is_collapsible S ndims nfree ntarget = false)
    ∧ ((planesOf S nfree).card = ndims - 1 →
        (is_collapsible S ndims nfree ntarget = true
          ↔ planesOf S nfree ⊆ planesOf S ntarget))
    ∧ ((planesOf S nfree).card = 1 →
        (is_collapsible S ndims nfree ntarget = true
          ↔ ∀ p ∈ planesOf S nfree, p ∈ planesOf S ntarget)) := by
  have hnd2 : 2 ≤ ndims := by rcases hnd with rfl | rfl <;> norm_num
  refine ⟨?_, ?_, ?_, ?_⟩
  · intro h
    simp [is_collapsible, h]
  · intro hcard
    have hne : (planesOf S nfree).Nonempty := by
      have : 0 < (planesOf S nfree).card := lt_of_lt_of_le (by omega) hcard
      exact Finset.card_pos.1 this
    have hmem : nfree ∈ surfaceNodes S := mem_surfaceNodes_of_planes S nfree hne
    simp [is_collapsible, hmem, hcard]
  · intro hcard
    have hne : (planesOf S nfree).Nonempty := by
      apply Finset.card_pos.1
      omega
    have hmem : nfree ∈ surfaceNodes S := mem_surfaceNodes_of_planes S nfree hne
    have hnotcorner : ¬ ndims ≤ (planesOf S nfree).card := by omega
    rcases hnd with rfl | rfl
    · have hc1 : (planesOf S nfree).card = 1 := by omega
      have hc2 : ¬ (planesOf S nfree).card = 2 := by omega
      rw [is_collapsible]
      simp only [hmem, if_true, if_neg hnotcorner, if_neg hc2,
        decide_eq_true_eq]
      rw [min_untop_eq _ hne]
      exact subset_iff_min_of_card_one hc1 _
    · have hc2 : (planesOf S nfree).card = 2 := by omega
      rw [is_collapsible]
      simp only [hmem, if_true, if_neg hnotcorner, if_pos hc2,
        Bool.and_eq_true, decide_eq_true_eq]
      rw [min_untop_eq _ hne, max_unbot_eq _ hne]
      exact subset_iff_min_max_of_card_two hc2 _
  · intro hcard
    have hne : (planesOf S nfree).Nonempty := by
      apply Finset.card_pos.1
      omega
    have hmem : nfree ∈ surfaceNodes S := mem_surfaceNodes_of_planes S nfree hne
    have hnotcorner : ¬ ndims ≤ (planesOf S nfree).card := by omega
    have hc2 : ¬ (planesOf S nfree).card = 2 := by omega
    rw [is_collapsible]
    simp only [hmem, if_true, if_neg hnotcorner, if_neg hc2,
      decide_eq_true_eq]
    rw [min_untop_eq _ hne, subset_iff_min_of_card_one hcard _,
      Finset.subset_iff]

/-- A small concrete surface: three facets of a 3D boundary, patches 1, 1
and 2, used to instantiate theorems with hypotheses. -/

theorem c3_is_collapsible_cases_witness :
    (0 ∉ surfaceNodes witnessSurface →
        is_collapsible witnessSurface 3 0 1 = true)
    ∧ (3 ≤ (planesOf witnessSurface 0).card →
        is_collapsible witnessSurface 3 0 1 = false)
    ∧ ((planesOf witnessSurface 0).card = 3 - 1 →
        (is_collapsible witnessSurface 3 0 1 = true
          ↔ planesOf witnessSurface 0 ⊆ planesOf witnessSurface 1))
    ∧ ((planesOf witnessSurface 0).card = 1 →
        (is_collapsible witnessSurface 3 0 1 = true
          ↔ ∀ p ∈ planesOf witnessSurface 0, p ∈ planesOf witnessSurface 1)) :=
  c3_is_collapsible_cases witnessSurface 3 (Or.inr rfl) 0 1

/-! ## Coplanar classification (Surface::calculate_coplanar_ids)

The 2D facet normals (lines 242-258) are modelled over the reals because
the code takes square roots; the flood fill that forms patches
(lines 318-366) is modelled over exact rationals, taking the facet-to-facet
adjacency `EEList` and the per-facet normals as data. -/

/-- The untested x component `sqrt(1 - ((x1-x0)/(y1-y0))^2)` together with
the `isnan` fallback: the double computation yields NaN exactly when
`y1 = y0` (division by zero feeding the square) or `1 - t^2 < 0`
(square root of a negative), in which case the code stores 0. -/

theorem normal2d_slanted : normal2d 0 0 1 2 = (-Real.sqrt (3 / 4), 1 / 2) := by
  have hcond : ¬ ((2 : ℝ) - 0 = 0 ∨ 1 - ((1 - 0) / (2 - 0)) ^ 2 < 0) := by
    push_neg
    norm_num
  have hnx : normal2dNx 0 0 1 2 = Real.sqrt (3 / 4) := by
    rw [normal2dNx]
    split
    next hc => rcases hc with hc | hc <;> norm_num at hc
    next hc => norm_num
  have hny : normal2dNy 0 0 1 2 = 1 / 2 := by
    rw [normal2dNy]
    split
    next hc => rcases hc with hc | hc <;> norm_num at hc
    next hc =>
      rw [hnx, Real.sq_sqrt (by norm_num : (0:ℝ) ≤ 3 / 4)]
      rw [show (1 : ℝ) - 3 / 4 = (1 / 2) ^ 2 by norm_num]
      exact Real.sqrt_sq (by norm_num)
  rw [normal2d, hnx, hny]
  rw [if_pos (by norm_num : (0:ℝ) < 2 - 0)]
  rw [if_neg (by norm_num : ¬ (0:ℝ) < 0 - 1)]

/-- C8 (code bug): for the 2D facet with endpoints (0,0) and (1,2) the
stored normal is (-sqrt(3)/2, 1/2), which is not even perpendicular to the
edge vector (1,2) — its dot product with the edge is 1 - sqrt(3)/2 and not
zero — so it cannot be the edge vector rotated by 90 degrees and
normalised, as the claim (and the spec's design note) requires. -/

theorem c8_normal2d_not_perpendicular :
    (normal2d 0 0 1 2).1 * 1 + (normal2d 0 0 1 2).2 * 2 ≠ 0 := by
  rw [normal2d_slanted]
  simp only
  intro hcontra
  have hs3 : Real.sqrt (3 / 4) = 1 := by linarith
  have h34 : (3 : ℝ) / 4 = 1 := by
    have hsq := Real.sq_sqrt (show (0 : ℝ) ≤ 3 / 4 by norm_num)
    rw [hs3] at hsq
    simpa using hsq.symm
  norm_num at h34

/-- Dot product of two vectors given as rational lists (the
`coplanar` accumulation of src/include/Surface.h lines 354-356). -/

theorem c7_counterexample :
    calculate_coplanar_ids ee7 normals7 COPLANAR_MAGIC_NUMBER = [1, 1, 2]
    ∧ COPLANAR_MAGIC_NUMBER ≤ dotQ (normals7.getD 1 []) (normals7.getD 2 [])
    ∧ COPLANAR_MAGIC_NUMBER ≤ dotQ (normals7.getD 0 []) (normals7.getD 1 [])
    ∧ ¬ COPLANAR_MAGIC_NUMBER ≤ dotQ (normals7.getD 0 []) (normals7.getD 2 []) := by
  refine ⟨?_, ?_, ?_, ?_⟩
  · norm_num [calculate_coplanar_ids, formPatches, advanceFront, processFacet,
      processNeighbour, findSeed, findSeedAux, frontInsert, dotQ, ee7, normals7,
      COPLANAR_MAGIC_NUMBER, List.replicate]
  · norm_num [dotQ, normals7, COPLANAR_MAGIC_NUMBER]
  · norm_num [dotQ, normals7, COPLANAR_MAGIC_NUMBER]
  · norm_num [dotQ, normals7, COPLANAR_MAGIC_NUMBER]

theorem getD_set_self (l : List ℕ) (i x : ℕ) (h : i < l.length) :
    (l.set i x).getD i 0 = x := by
  simp [List.getD, List.getElem?_set_eq_of_lt, h]

theorem getD_set_other (l : List ℕ) (i j x : ℕ) (h : j ≠ i) :
    (l.set i x).getD j 0 = l.getD j 0 := by
  simp [List.getD, List.getElem?_set_ne (Ne.symm h)]

theorem processNeighbour_skip (normals : List (List ℚ)) (tol : ℚ)
    (ref : List ℚ) (cid : ℕ) (st : FloodState) (a : ℕ)
    (h1 : 0 < st.ids.getD a 0) :
    processNeighbour normals tol ref cid st a = st := by
  rw [processNeighbour, if_pos h1]

theorem processNeighbour_assign (normals : List (List ℚ)) (tol : ℚ)
    (ref : List ℚ) (cid : ℕ) (st : FloodState) (a : ℕ)
    (h1 : ¬ 0 < st.ids.getD a 0) (h2 : tol ≤ dotQ ref (normals.getD a [])) :
    processNeighbour normals tol ref cid st a
      = ⟨st.ids.set a cid, frontInsert a st.front⟩ := by
  rw [processNeighbour, if_neg h1, if_pos h2]

theorem processNeighbour_far (normals : List (List ℚ)) (tol : ℚ)
    (ref : List ℚ) (cid : ℕ) (st : FloodState) (a : ℕ)
    (h1 : ¬ 0 < st.ids.getD a 0)
    (h2 : ¬ tol ≤ dotQ ref (normals.getD a [])) :
    processNeighbour normals tol ref cid st a = st := by
  rw [processNeighbour, if_neg h1, if_neg h2]

theorem processNeighbour_ids_other (normals : List (List ℚ)) (tol : ℚ)
    (ref : List ℚ) (cid : ℕ) (st : FloodState) (a f : ℕ) (hfa : f ≠ a) :
    (processNeighbour normals tol ref cid st a).ids.getD f 0
      = st.ids.getD f 0 := by
  rw [processNeighbour]
  split
  · rfl
  · split
    · exact getD_set_other st.ids a f cid hfa
    · rfl

theorem processNeighbour_ids_length (normals : List (List ℚ)) (tol : ℚ)
    (ref : List ℚ) (cid : ℕ) (st : FloodState) (a : ℕ) :
    (processNeighbour normals tol ref cid st a).ids.length
      = st.ids.length := by
  rw [processNeighbour]
  split
  · rfl
  · split
    · simp
    · rfl

theorem foldl_processNeighbour_getD (normals : List (List ℚ)) (tol : ℚ)
    (ref : List ℚ) (cid f : ℕ) :
    ∀ (lst : List ℕ) (st : FloodState), f < st.ids.length →
      (lst.foldl (processNeighbour normals tol ref cid) st).ids.getD f 0
        = if st.ids.getD f 0 = 0 ∧ f ∈ lst
            ∧ tol ≤ dotQ ref (normals.getD f []) then cid
          else st.ids.getD f 0 := by
  intro lst
  induction lst with
  | nil => intro st _; simp
  | cons a rest ih =>
    intro st hf
    have hf' : f < (processNeighbour normals tol ref cid st a).ids.length := by
      rw [processNeighbour_ids_length]; exact hf
    rw [List.foldl_cons, ih _ hf']
    by_cases hfa : f = a
    · subst hfa
      by_cases h1 : 0 < st.ids.getD f 0
      · have hne : ¬ st.ids.getD f 0 = 0 := by omega
        rw [processNeighbour_skip normals tol ref cid st f h1]
        rw [if_neg (fun hc => hne hc.1), if_neg (fun hc => hne hc.1)]
      · have h0 : st.ids.getD f 0 = 0 := by omega
        by_cases h2 : tol ≤ dotQ ref (normals.getD f [])
        · rw [processNeighbour_assign normals tol ref cid st f h1 h2]
          have hset : ((st.ids.set f cid).getD f 0) = cid :=
            getD_set_self st.ids f cid hf
          simp only [hset]
          rw [ite_self, if_pos ⟨h0, List.mem_cons_self f rest, h2⟩]
        · rw [processNeighbour_far normals tol ref cid st f h1 h2]
          rw [if_neg (fun hc => h2 hc.2.2), if_neg (fun hc => h2 hc.2.2)]
    · have hother : (processNeighbour normals tol ref cid st a).ids.getD f 0
          = st.ids.getD f 0 := processNeighbour_ids_other _ _ _ _ _ _ _ hfa
      rw [hother]
      refine if_congr ?_ rfl rfl
      simp [List.mem_cons, hfa]

/-- C7 (amended): while flooding a patch with reference normal `ref` (the
normal of the facet that seeded the patch) and current id `cid`, processing
a facet `sele` popped from the front assigns `cid` to a facet `f` whose id
is still 0 exactly when `f` is an `EEList` neighbour of `sele` and the dot
product of the patch reference (seed) normal — not the popped facet's own
normal — with `f`'s normal is at least the coplanar tolerance; every other
facet id is left unchanged. -/

theorem c7_flood_assignment (EEList : List (List ℕ))
    (normals : List (List ℚ)) (tol : ℚ) (ref : List ℚ) (cid : ℕ)
    (st : FloodState) (sele f : ℕ) (hf : f < st.ids.length) :
    (processFacet EEList normals tol ref cid st sele).ids.getD f 0
      = if st.ids.getD f 0 = 0 ∧ f ∈ EEList.getD sele []
          ∧ tol ≤ dotQ ref (normals.getD f []) then cid
        else st.ids.getD f 0 :=
  foldl_processNeighbour_getD normals tol ref cid f (EEList.getD sele []) st hf

theorem c7_flood_assignment_witness :
    (2 : ℕ) < (FloodState.mk [1, 1, 0] [1]).ids.length
    ∧ (processFacet ee7 normals7 COPLANAR_MAGIC_NUMBER
          (normals7.getD 0 []) 1 (FloodState.mk [1, 1, 0] [1]) 1).ids.getD 2 0
        = if (FloodState.mk [1, 1, 0] [1]).ids.getD 2 0 = 0
              ∧ 2 ∈ ee7.getD 1 []
              ∧ COPLANAR_MAGIC_NUMBER
                  ≤ dotQ (normals7.getD 0 []) (normals7.getD 2 [])
            then 1
          else (FloodState.mk [1, 1, 0] [1]).ids.getD 2 0 :=
  ⟨by norm_num, c7_flood_assignment ee7 normals7 COPLANAR_MAGIC_NUMBER
    (normals7.getD 0 []) 1 (FloodState.mk [1, 1, 0] [1]) 1 2 (by norm_num)⟩

/-! ## Coarsening: Coarsen::coarsen_identify_kernel

The kernel lives in the same header after the Surface class.  The mesh
state it reads (Mesh.h is not in the repository snapshot) is modelled from
the spec: adjacency lists, the cached metric length of each edge, and the
partition predicates; the iteration order of `NNList` and `NEList`
parameters is the container order. -/

/-- Mesh state read by the coarsening identify kernel.  `edgeLength` is
the cached metric length stored on the `Edge` object (spec invariant I8);
it is data, not recomputed. -/

theorem c1_volume_ratio_rejects (m : CMesh) (calcLength : ℕ → ℕ → ℚ)
    (rm target : ℕ) (Lmax : ℚ)
    (h : ∃ e ∈ m.NEList rm, target ∉ m.elemVerts e
      ∧ elemVolume m (substVerts rm target (m.elemVerts e))
          / elemVolume m (m.elemVerts e) ≤ 1 / 1000) :
    checkCandidate m calcLength rm target Lmax = false := by
  rcases h with ⟨e, he, htgt, hratio⟩
  rw [checkCandidate]
  apply Bool.and_eq_false_iff.2
  left
  apply List.all_eq_false.2
  refine ⟨e, he, ?_⟩
  rw [if_neg htgt]
  simpa using not_lt.2 hratio

/-- Concrete 2D mesh for the C1 witness: collapsing vertex 0 onto vertex 1
inverts the rewritten triangle [0, 2, 3]. -/

theorem c1_volume_ratio_rejects_witness :
    (∃ e ∈ c1Mesh.NEList 0, 1 ∉ c1Mesh.elemVerts e
      ∧ elemVolume c1Mesh (substVerts 0 1 (c1Mesh.elemVerts e))
          / elemVolume c1Mesh (c1Mesh.elemVerts e) ≤ 1 / 1000)
    ∧ checkCandidate c1Mesh (fun _ _ => 1) 0 1 2 = false := by
  have hex : ∃ e ∈ c1Mesh.NEList 0, 1 ∉ c1Mesh.elemVerts e
      ∧ elemVolume c1Mesh (substVerts 0 1 (c1Mesh.elemVerts e))
          / elemVolume c1Mesh (c1Mesh.elemVerts e) ≤ 1 / 1000 := by
    refine ⟨0, by norm_num [c1Mesh], by norm_num [c1Mesh], ?_⟩
    norm_num [c1Mesh, elemVolume, substVerts, signedArea]
  exact ⟨hex, c1_volume_ratio_rejects c1Mesh (fun _ _ => 1) 0 1 2 hex⟩

theorem mem_insertByLen (x y : ℚ × ℕ) (l : List (ℚ × ℕ)) :
    y ∈ insertByLen x l ↔ y = x ∨ y ∈ l := by
  induction l with
  | nil => simp [insertByLen]
  | cons a rest ih =>
    rw [insertByLen]
    split
    · simp
    · simp only [List.mem_cons, ih]
      tauto

theorem insertByLen_sorted (x : ℚ × ℕ) (l : List (ℚ × ℕ))
    (hl : l.Pairwise (fun a b => a.1 ≤ b.1)) :
    (insertByLen x l).Pairwise (fun a b => a.1 ≤ b.1) := by
  induction l with
  | nil => simp [insertByLen]
  | cons a rest ih =>
    rw [insertByLen]
    rcases List.pairwise_cons.1 hl with ⟨ha, hrest⟩
    split
    next hlt =>
      refine List.pairwise_cons.2 ⟨?_, hl⟩
      intro b hb
      rcases List.mem_cons.1 hb with rfl | hbrest
      · exact le_of_lt hlt
      · exact le_trans (le_of_lt hlt) (ha b hbrest)
    next hge =>
      refine List.pairwise_cons.2 ⟨?_, ih hrest⟩
      intro b hb
      rcases (mem_insertByLen x b rest).1 hb with rfl | hbrest
      · exact le_of_not_lt hge
      · exact ha b hbrest

/-- Membership in the accumulated `short_edges` fold. -/

theorem shortEdges_fold_mem (m : CMesh) (rm : ℕ) (Llow : ℚ) (w : ℕ) :
    ∀ (lst : List ℕ) (acc : List (ℚ × ℕ)),
      ((m.edgeLength rm w, w) ∈ lst.foldl (fun acc nn =>
          if m.recvHalo nn then acc
          else if ¬ is_collapsible m.surf m.ndims rm nn then acc
          else if m.edgeLength rm nn < Llow then
            insertByLen (m.edgeLength rm nn, nn) acc
          else acc) acc
        ↔ ((m.edgeLength rm w, w) ∈ acc
          ∨ (w ∈ lst ∧ m.recvHalo w = false
              ∧ is_collapsible m.surf m.ndims rm w = true
              ∧ m.edgeLength rm w < Llow))) := by
  intro lst
  induction lst with
  | nil => intro acc; simp
  | cons a rest ih =>
    intro acc
    rw [List.foldl_cons, ih]
    by_cases hwa : w = a
    · subst hwa
      by_cases hhalo : m.recvHalo w
      · simp [hhalo]
      · rw [if_neg (by simp [hhalo])]
        by_cases hcoll : is_collapsible m.surf m.ndims rm w
        · rw [if_neg (by simp [hcoll])]
          by_cases hlen : m.edgeLength rm w < Llow
          · rw [if_pos hlen]
            simp only [mem_insertByLen]
            constructor
            · rintro ((h | h) | h)
              · right
                exact ⟨List.mem_cons_self w rest,
                  by simp [hhalo], by simp [hcoll], hlen⟩
              · left; exact h
              · right
                exact ⟨List.mem_cons_of_mem _ h.1, h.2⟩
            · rintro (h | h)
              · left; left; trivial
              · left; left; trivial
          · rw [if_neg hlen]
            constructor
            · rintro (h | h)
              · left; exact h
              · exact absurd h.2.2.2 hlen
            · rintro (h | h)
              · left; exact h
              · exact absurd h.2.2.2 hlen
        · rw [if_pos (by simp [hcoll])]
          constructor
          · rintro (h | h)
            · left; exact h
            · right; exact ⟨List.mem_cons_of_mem _ h.1, h.2⟩
          · rintro (h | h)
            · left; exact h
            · rcases h with ⟨_, _, hc, _⟩
              exact absurd hc (by simpa using hcoll)
    · by_cases hhalo : m.recvHalo a
      · rw [if_pos hhalo]
        simp [List.mem_cons, hwa]
      · rw [if_neg (by simp [hhalo])]
        by_cases hcoll : is_collapsible m.surf m.ndims rm a
        · rw [if_neg (by simp [hcoll])]
          by_cases hlen : m.edgeLength rm a < Llow
          · rw [if_pos hlen]
            simp only [mem_insertByLen]
            have hne : (m.edgeLength rm w, w) ≠ (m.edgeLength rm a, a) := by
              intro hc
              exact hwa (congrArg Prod.snd hc)
            simp [hne, List.mem_cons, hwa]
          · rw [if_neg hlen]
            simp [List.mem_cons, hwa]
        · rw [if_pos (by simp [hcoll])]
          simp [List.mem_cons, hwa]

/-- Sortedness of the accumulated `short_edges` fold. -/

theorem shortEdges_fold_sorted (m : CMesh) (rm : ℕ) (Llow : ℚ) :
    ∀ (lst : List ℕ) (acc : List (ℚ × ℕ)),
      acc.Pairwise (fun a b => a.1 ≤ b.1) →
      (lst.foldl (fun acc nn =>
          if m.recvHalo nn then acc
          else if ¬ is_collapsible m.surf m.ndims rm nn then acc
          else if m.edgeLength rm nn < Llow then
            insertByLen (m.edgeLength rm nn, nn) acc
          else acc) acc).Pairwise (fun a b => a.1 ≤ b.1) := by
  intro lst
  induction lst with
  | nil => intro acc hacc; simpa using hacc
  | cons a rest ih =>
    intro acc hacc
    rw [List.foldl_cons]
    apply ih
    split
    · exact hacc
    · split
      · exact hacc
      · split
        · exact insertByLen_sorted _ _ hacc
        · exact hacc

/-- C2: a neighbour `w` of `rm_vertex` enters the candidate list exactly
when it is not a halo-received vertex, `Surface::is_collapsible` accepts
the pair, and the cached metric edge length is strictly below `L_low`
(a neighbour at exactly `L_low` is never a candidate); the list the kernel
consumes in order is ascending in cached edge length. -/

theorem c2_candidate_filter (m : CMesh) (rm : ℕ) (Llow : ℚ) :
    (∀ w : ℕ, ((m.edgeLength rm w, w) ∈ shortEdges m rm Llow
      ↔ (w ∈ m.NNList rm ∧ m.recvHalo w = false
          ∧ is_collapsible m.surf m.ndims rm w = true
          ∧ m.edgeLength rm w < Llow)))
    ∧ (shortEdges m rm Llow).Pairwise (fun a b => a.1 ≤ b.1) := by
  constructor
  · intro w
    rw [shortEdges, shortEdges_fold_mem m rm Llow w (m.NNList rm) []]
    simp
  · rw [shortEdges]
    exact shortEdges_fold_sorted m rm Llow (m.NNList rm) [] (by simp)

/-! ## Smoothing: Smooth3D (src/include/Smooth3D.h)

The smoother is 3D only (`ndims=3`, `nloc=4`, `msize=6`).  Coordinates are
rational triples and metrics rational 6-lists.  The geometric kernels whose
code is not in the repository snapshot (ElementProperty.h's `lipnikov` and
`lipnikov_grad`, the Eigen SVD solve of the Laplacian proposal, and the
vector normalisation `s = g/|g|`, which needs a square root) are modelled
from the spec as oracle function parameters collected in `Geom`. -/

/-- A 3D point or vector. -/

theorem genLocLoop_none_iff (msh : SMesh) (coords : ℕ → Vec3) (node : ℕ)
    (p : Vec3) :
    ∀ (lst : List ℕ) (best : Option (ℚ × (ℚ × ℚ × ℚ × ℚ) × ℕ)),
      genLocLoop msh coords node p lst best = none
        ↔ ∃ e ∈ lst, substVolume msh coords e node p < 0 := by
  intro lst
  induction lst with
  | nil => intro best; simp [genLocLoop]
  | cons e rest ih =>
    intro best
    by_cases hneg : substVolume msh coords e node p < 0
    · simp only [genLocLoop, if_pos hneg]
      constructor
      · intro _
        exact ⟨e, List.mem_cons_self e rest, hneg⟩
      · intro _
        trivial
    · have hstep : ∀ best2 : Option (ℚ × (ℚ × ℚ × ℚ × ℚ) × ℕ),
          (genLocLoop msh coords node p rest best2 = none
            ↔ ∃ e2 ∈ e :: rest, substVolume msh coords e2 node p < 0) := by
        intro best2
        rw [ih best2]
        constructor
        · rintro ⟨e2, he2, hv⟩
          exact ⟨e2, List.mem_cons_of_mem _ he2, hv⟩
        · rintro ⟨e2, he2, hv⟩
          rcases List.mem_cons.1 he2 with rfl | h
          · exact absurd hv hneg
          · exact ⟨e2, h, hv⟩
      rcases best with _ | ⟨tol, l, be⟩
      · simp only [genLocLoop, if_neg hneg]
        exact hstep _
      · simp only [genLocLoop, if_neg hneg]
        split
        · exact hstep _
        · exact hstep _

theorem generate_location_3d_none_of_neg (msh : SMesh) (coords : ℕ → Vec3)
    (metric : ℕ → Met6) (node : ℕ) (p : Vec3)
    (h : ∃ e ∈ msh.NEList node, substVolume msh coords e node p < 0) :
    generate_location_3d msh coords metric node p = none := by
  rw [generate_location_3d]
  rw [show genLocLoop msh coords node p (msh.NEList node) none = none from
    (genLocLoop_none_iff msh coords node p (msh.NEList node) none).2 h]

theorem genLocLoop_some_onward (msh : SMesh) (coords : ℕ → Vec3)
    (node : ℕ) (p : Vec3) :
    ∀ (lst : List ℕ) (b : ℚ × (ℚ × ℚ × ℚ × ℚ) × ℕ),
      genLocLoop msh coords node p lst (some b) = none
        ∨ ∃ r, genLocLoop msh coords node p lst (some b) = some (some r) := by
  intro lst
  induction lst with
  | nil =>
    intro b
    right
    exact ⟨b, rfl⟩
  | cons e rest ih =>
    intro b
    by_cases hneg : substVolume msh coords e node p < 0
    · left
      simp only [genLocLoop, if_pos hneg]
    · rcases b with ⟨tol, l, be⟩
      simp only [genLocLoop, if_neg hneg]
      split
      · exact ih _
      · exact ih _

theorem genLocLoop_cons_not_midway (msh : SMesh) (coords : ℕ → Vec3)
    (node : ℕ) (p : Vec3) (e : ℕ) (rest : List ℕ) :
    genLocLoop msh coords node p (e :: rest) none = none
      ∨ ∃ r, genLocLoop msh coords node p (e :: rest) none
          = some (some r) := by
  by_cases hneg : substVolume msh coords e node p < 0
  · left
    simp only [genLocLoop, if_pos hneg]
  · simp only [genLocLoop, if_neg hneg]
    exact genLocLoop_some_onward msh coords node p rest _

/-- C4 (amended): the Laplacian kernel at proposed position `p` rejects —
returning false and leaving the state untouched — exactly when SOME
(not every) simplex incident to the vertex has a negative signed volume
under the new position; otherwise it commits `p` and the interpolated
metric unconditionally, touching no other vertex. -/

theorem c4_laplacian_reject_iff (msh : SMesh) (st : SState) (node : ℕ)
    (p : Vec3) (hne : msh.NEList node ≠ []) :
    ((laplacian_kernel_at msh st node p).1 = false
      ↔ ∃ e ∈ msh.NEList node, substVolume msh st.coords e node p < 0)
    ∧ ((laplacian_kernel_at msh st node p).1 = false
        → (laplacian_kernel_at msh st node p).2 = st)
    ∧ ((laplacian_kernel_at msh st node p).1 = true
        → ∃ mp, generate_location_3d msh st.coords st.metric node p = some mp
          ∧ (laplacian_kernel_at msh st node p).2 = commitMove st node p mp) := by
  have hgen : generate_location_3d msh st.coords st.metric node p = none
      ↔ ∃ e ∈ msh.NEList node, substVolume msh st.coords e node p < 0 := by
    constructor
    · intro hnone
      rw [generate_location_3d] at hnone
      rcases hlst : msh.NEList node with _ | ⟨e, rest⟩
      · exact absurd hlst hne
      · rw [hlst] at hnone
        rcases genLocLoop_cons_not_midway msh st.coords node p e rest with
          hloop | ⟨r, hloop⟩
        · exact (genLocLoop_none_iff msh st.coords node p _ _).1 hloop
        · rw [hloop] at hnone
          simp at hnone
    · intro h
      exact generate_location_3d_none_of_neg msh st.coords st.metric node p h
  refine ⟨?_, ?_, ?_⟩
  · rw [laplacian_kernel_at]
    rcases hcase : generate_location_3d msh st.coords st.metric node p with
      _ | mp
    · simpa using hgen.1 hcase
    · simp only
      constructor
      · intro hcontra
        exact absurd hcontra (by simp)
      · intro hex
        rw [hgen.2 hex] at hcase
        exact absurd hcase (by simp)
  · rw [laplacian_kernel_at]
    rcases hcase : generate_location_3d msh st.coords st.metric node p with
      _ | mp
    · intro _
      rfl
    · intro hcontra
      exact absurd hcontra (by simp)
  · rw [laplacian_kernel_at]
    rcases hcase : generate_location_3d msh st.coords st.metric node p with
      _ | mp
    · intro hcontra
      exact absurd hcontra (by simp)
    · intro _
      exact ⟨mp, rfl, rfl⟩

/-- Concrete mesh for C4: two tetrahedra share vertex 0 (and the face
0-1-2/0-2-1) with opposite orientations, so moving vertex 0 to (0,0,2)
inverts element 0 but not element 1. -/

theorem c4_laplacian_reject_iff_witness :
    c4Mesh.NEList 0 ≠ []
    ∧ (((laplacian_kernel_at c4Mesh c4State 0 (0, 0, 2)).1 = false
      ↔ ∃ e ∈ c4Mesh.NEList 0,
          substVolume c4Mesh c4State.coords e 0 (0, 0, 2) < 0)
    ∧ ((laplacian_kernel_at c4Mesh c4State 0 (0, 0, 2)).1 = false
        → (laplacian_kernel_at c4Mesh c4State 0 (0, 0, 2)).2 = c4State)
    ∧ ((laplacian_kernel_at c4Mesh c4State 0 (0, 0, 2)).1 = true
        → ∃ mp, generate_location_3d c4Mesh c4State.coords c4State.metric 0
              (0, 0, 2) = some mp
          ∧ (laplacian_kernel_at c4Mesh c4State 0 (0, 0, 2)).2
              = commitMove c4State 0 (0, 0, 2) mp)) :=
  ⟨by decide, c4_laplacian_reject_iff c4Mesh c4State 0 (0, 0, 2) (by decide)⟩

/-- C4 (counterexample to the claim as stated): at the concrete state
`c4State`, vertex 0 has two incident tetrahedra; moving it to (0,0,2)
inverts element 0 but leaves element 1 with positive volume, and the
Laplacian kernel rejects the move even though not every incident simplex
has negative volume. -/

theorem c4_counterexample :
    (laplacian_kernel_at c4Mesh c4State 0 (0, 0, 2)).1 = false
    ∧ (1 ∈ c4Mesh.NEList 0
      ∧ 0 < substVolume c4Mesh c4State.coords 1 0 (0, 0, 2)) := by
  constructor
  · norm_num [laplacian_kernel_at, generate_location_3d, genLocLoop,
      substVolume, tetVolume, c4Mesh, c4State]
  · constructor
    · norm_num [c4Mesh]
    · norm_num [substVolume, tetVolume, c4Mesh, c4State]

/-! ### Smart Laplacian kernel -/

/-- The smart-Laplacian / Linf acceptance threshold `epsilon_q`
(src/include/Smooth3D.h line 59). -/

theorem c5_smart_accept_iff (G : Geom) (msh : SMesh) (st : SState)
    (node : ℕ) (mp : Met6) (fc fo : ℚ) (q1 : ℕ → ℚ)
    (hgen : generate_location_3d msh st.coords st.metric node
      (G.propose msh st.coords st.metric node) = some mp)
    (hfc : functional_Linf_at G msh st.coords st.metric node
      (G.propose msh st.coords st.metric node) mp = some fc)
    (hfo : functional_Linf_cached G msh st.coords st.metric st.quality node
      = (some fo, q1)) :
    ((smart_laplacian_3d_kernel G msh st node).1 = true
      ↔ epsilonQ ≤ fc - fo)
    ∧ ((smart_laplacian_3d_kernel G msh st node).1 = false
        → (smart_laplacian_3d_kernel G msh st node).2.coords = st.coords
          ∧ (smart_laplacian_3d_kernel G msh st node).2.metric = st.metric)
    ∧ ((smart_laplacian_3d_kernel G msh st node).1 = true
        → (smart_laplacian_3d_kernel G msh st node).2.coords node
            = G.propose msh st.coords st.metric node
          ∧ (smart_laplacian_3d_kernel G msh st node).2.metric node = mp
          ∧ (smart_laplacian_3d_kernel G msh st node).2.quality
              = refreshQuality G msh
                (smart_laplacian_3d_kernel G msh st node).2.coords
                (smart_laplacian_3d_kernel G msh st node).2.metric
                q1 (msh.NEList node)) := by
  have hk : smart_laplacian_3d_kernel G msh st node
      = if fc - fo < epsilonQ then (false, { st with quality := q1 })
        else
          (true,
            { coords := fun v => if v = node then
                G.propose msh st.coords st.metric node else st.coords v,
              metric := fun v => if v = node then mp else st.metric v,
              quality := refreshQuality G msh
                (fun v => if v = node then
                  G.propose msh st.coords st.metric node else st.coords v)
                (fun v => if v = node then mp else st.metric v)
                q1 (msh.NEList node),
              active := st.active,
              good_q := st.good_q }) := by
    rw [smart_laplacian_3d_kernel, hgen]
    dsimp only
    rw [hfc, hfo]
  by_cases hlt : fc - fo < epsilonQ
  · rw [hk, if_pos hlt]
    refine ⟨?_, ?_, ?_⟩
    · constructor
      · intro hcontra
        exact absurd hcontra (by simp)
      · intro hge
        exact absurd hlt (not_lt.2 hge)
    · intro _
      exact ⟨rfl, rfl⟩
    · intro hcontra
      exact absurd hcontra (by simp)
  · rw [hk, if_neg hlt]
    refine ⟨?_, ?_, ?_⟩
    · constructor
      · intro _
        exact le_of_not_lt hlt
      · intro _
        rfl
    · intro hcontra
      exact absurd hcontra (by simp)
    · intro _
      refine ⟨by simp, by simp, rfl⟩

/-- Concrete mesh for C5: a single tetrahedron incident to vertex 0. -/

theorem c5_counterexample :
    (smart_laplacian_3d_kernel c5G c5Mesh c5State 0).1 = true
    ∧ (smart_laplacian_3d_kernel c5G c5Mesh c5State 0).2.coords 0
        = (1 / 10, 1 / 10, 1 / 10)
    ∧ functional_Linf_at c5G c5Mesh c5State.coords c5State.metric 0
        (1 / 10, 1 / 10, 1 / 10) [1, 0, 0, 1, 0, 1] = some (1 / 2 + epsilonQ)
    ∧ (functional_Linf_cached c5G c5Mesh c5State.coords c5State.metric
        c5State.quality 0).1 = some (1 / 2)
    ∧ ¬ (epsilonQ < (1 / 2 + epsilonQ) - 1 / 2) := by
  refine ⟨?_, ?_, ?_, ?_, by norm_num [epsilonQ]⟩
  · norm_num [smart_laplacian_3d_kernel, generate_location_3d, genLocLoop,
      substVolume, tetVolume, interpMetric, functional_Linf_at, listMinQ,
      lipMoved, othersOf, functional_Linf_cached, linfCachedStep, lipOfElem,
      epsilonQ, c5G, c5Mesh, c5State, List.range_succ, Prod.ext_iff]
  · norm_num [smart_laplacian_3d_kernel, generate_location_3d, genLocLoop,
      substVolume, tetVolume, interpMetric, functional_Linf_at, listMinQ,
      lipMoved, othersOf, functional_Linf_cached, linfCachedStep, lipOfElem,
      refreshQuality, epsilonQ, c5G, c5Mesh, c5State, List.range_succ,
      Prod.ext_iff]
  · norm_num [functional_Linf_at, listMinQ, lipMoved, othersOf, epsilonQ,
      c5G, c5Mesh, c5State, Prod.ext_iff]
  · norm_num [functional_Linf_cached, linfCachedStep, lipOfElem, c5G,
      c5Mesh, c5State, Prod.ext_iff]

theorem c5_smart_accept_iff_witness :
    ((smart_laplacian_3d_kernel c5G c5Mesh c5State 0).1 = true
      ↔ epsilonQ ≤ (1 / 2 + epsilonQ) - 1 / 2)
    ∧ ((smart_laplacian_3d_kernel c5G c5Mesh c5State 0).1 = false
        → (smart_laplacian_3d_kernel c5G c5Mesh c5State 0).2.coords
            = c5State.coords
          ∧ (smart_laplacian_3d_kernel c5G c5Mesh c5State 0).2.metric
            = c5State.metric)
    ∧ ((smart_laplacian_3d_kernel c5G c5Mesh c5State 0).1 = true
        → (smart_laplacian_3d_kernel c5G c5Mesh c5State 0).2.coords 0
            = c5G.propose c5Mesh c5State.coords c5State.metric 0
          ∧ (smart_laplacian_3d_kernel c5G c5Mesh c5State 0).2.metric 0
              = [1, 0, 0, 1, 0, 1]
          ∧ (smart_laplacian_3d_kernel c5G c5Mesh c5State 0).2.quality
              = refreshQuality c5G c5Mesh
                (smart_laplacian_3d_kernel c5G c5Mesh c5State 0).2.coords
                (smart_laplacian_3d_kernel c5G c5Mesh c5State 0).2.metric
                c5State.quality (c5Mesh.NEList 0)) :=
  c5_smart_accept_iff c5G c5Mesh c5State 0 [1, 0, 0, 1, 0, 1]
    (1 / 2 + epsilonQ) (1 / 2) c5State.quality
    (by norm_num [generate_location_3d, genLocLoop, substVolume, tetVolume,
      interpMetric, c5G, c5Mesh, c5State, List.range_succ, Prod.ext_iff])
    (by norm_num [functional_Linf_at, listMinQ, lipMoved, othersOf,
      epsilonQ, c5G, c5Mesh, c5State, Prod.ext_iff])
    (by norm_num [functional_Linf_cached, linfCachedStep, lipOfElem, c5G,
      c5Mesh, c5State, Prod.ext_iff])

/-! ### Quality cache initialisation and the Linf optimisation kernel -/

/-- The quality cache filled by `Smooth3D::init_cache`
(src/include/Smooth3D.h lines 556-579): deleted elements (`n[0]<0`,
modelled by `elemLive = false`) get 1.0, live elements their Lipnikov
quality. -/

theorem worstElement_gt (g : ℚ) (quality : ℕ → ℚ) :
    ∀ (l : List ℕ) (acc : Option (ℚ × ℕ)),
      (∀ e ∈ l, g < quality e) →
      (∀ q0 w0, acc = some (q0, w0) → g < q0) →
      ∀ q we, l.foldl (fun acc e =>
          match acc with
          | none => some (quality e, e)
          | some (q, w) =>
            if quality e < q then some (quality e, e) else some (q, w)) acc
        = some (q, we) → g < q := by
  intro l
  induction l with
  | nil =>
    intro acc _ hacc q we hfold
    exact hacc q we hfold
  | cons e rest ih =>
    intro acc hl hacc q we hfold
    rw [List.foldl_cons] at hfold
    refine ih _ (fun x hx => hl x (List.mem_cons_of_mem _ hx)) ?_ q we hfold
    intro q0 w0 hstep
    rcases acc with _ | ⟨qa, wa⟩
    · simp only at hstep
      rcases Prod.mk.injEq .. ▸ (Option.some.injEq .. ▸ hstep) with ⟨hq, _⟩
      rw [← hq]
      exact hl e (List.mem_cons_self e rest)
    · simp only at hstep
      split at hstep
      · rcases Prod.mk.injEq .. ▸ (Option.some.injEq .. ▸ hstep) with ⟨hq, _⟩
        rw [← hq]
        exact hl e (List.mem_cons_self e rest)
      · exact hacc q0 w0 hstep

theorem worstElement_isSome (quality : ℕ → ℚ) :
    ∀ (l : List ℕ) (b : ℚ × ℕ),
      ∃ r, l.foldl (fun acc e =>
          match acc with
          | none => some (quality e, e)
          | some (q, w) =>
            if quality e < q then some (quality e, e) else some (q, w))
        (some b) = some r := by
  intro l
  induction l with
  | nil =>
    intro b
    exact ⟨b, rfl⟩
  | cons e rest ih =>
    intro b
    rw [List.foldl_cons]
    simp only
    split
    · exact ih _
    · exact ih _

/-- C6 (amended): `good_q` is the sum of the cached qualities of the LIVE
elements divided by the TOTAL element count (deleted elements contribute
1.0 to the cache but nothing to the sum), and the Linf kernel returns
immediately with no move whenever every incident element's cached quality
strictly exceeds `good_q`. -/

theorem c6_good_q_and_linf_gate (G : Geom) (msh : SMesh)
    (coords : ℕ → Vec3) (metric : ℕ → Met6) (st : SState) (n0 : ℕ)
    (hne : msh.NEList n0 ≠ [])
    (hall : ∀ e ∈ msh.NEList n0, st.good_q < st.quality e) :
    (initGoodQ G msh coords metric
      = ((List.range msh.NElements).map (fun e =>
          if msh.elemLive e then initQuality G msh coords metric e else 0)).sum
        / msh.NElements)
    ∧ optimisation_linf_3d_kernel G msh st n0 = (false, st) := by
  constructor
  · rw [initGoodQ]
    have hfold : ∀ (l : List ℕ) (acc : ℚ),
        l.foldl (fun acc e =>
          if msh.elemLive e then acc + lipOfElem G msh coords metric e
          else acc) acc
        = acc + (l.map (fun e =>
            if msh.elemLive e then initQuality G msh coords metric e else 0)).sum := by
      intro l
      induction l with
      | nil => intro acc; simp
      | cons e rest ihl =>
        intro acc
        rw [List.foldl_cons, ihl, List.map_cons, List.sum_cons]
        by_cases hlive : msh.elemLive e
        · rw [if_pos hlive, if_pos hlive, initQuality, if_pos hlive]
          ring
        · rw [if_neg hlive, if_neg hlive]
          ring
    rw [hfold]
    ring_nf
  · rw [optimisation_linf_3d_kernel]
    rcases hlst : msh.NEList n0 with _ | ⟨e, rest⟩
    · exact absurd hlst hne
    · have hsome := worstElement_isSome st.quality rest (st.quality e, e)
      rcases hsome with ⟨⟨q, we⟩, hsome⟩
      have hworst : worstElement st.quality (e :: rest) = some (q, we) := by
        rw [worstElement, List.foldl_cons]
        exact hsome
      rw [hworst]
      dsimp only
      have hgt : st.good_q < q := by
        refine worstElement_gt st.good_q st.quality (e :: rest) none ?_ ?_ q we ?_
        · intro x hx
          refine hall x ?_
          rw [hlst]
          exact hx
        · intro q0 w0 hcontra
          exact absurd hcontra (by simp)
        · rw [List.foldl_cons]
          exact hsome
      rw [if_pos hgt]

/-- Concrete data for the C6 counterexample: two elements, the second
deleted; the live element has quality 1/2, the deleted one caches 1.0. -/

theorem c6_counterexample :
    initGoodQ c6G c6Mesh (fun _ => (0, 0, 0)) (fun _ => [1, 0, 0, 1, 0, 1])
        = 1 / 4
    ∧ ((List.range c6Mesh.NElements).map
        (initQuality c6G c6Mesh (fun _ => (0, 0, 0))
          (fun _ => [1, 0, 0, 1, 0, 1]))).sum / c6Mesh.NElements = 3 / 4
    ∧ initGoodQ c6G c6Mesh (fun _ => (0, 0, 0)) (fun _ => [1, 0, 0, 1, 0, 1])
      ≠ ((List.range c6Mesh.NElements).map
          (initQuality c6G c6Mesh (fun _ => (0, 0, 0))
            (fun _ => [1, 0, 0, 1, 0, 1]))).sum / c6Mesh.NElements := by
  refine ⟨?_, ?_, ?_⟩
  · norm_num [initGoodQ, lipOfElem, c6G, c6Mesh, List.range_succ]
  · norm_num [initQuality, lipOfElem, c6G, c6Mesh, List.range_succ]
  · norm_num [initGoodQ, initQuality, lipOfElem, c6G, c6Mesh,
      List.range_succ]

/-- A state whose one incident element is already better than `good_q`. -/

theorem c6_good_q_and_linf_gate_witness :
    (initGoodQ c5G c5Mesh c6State.coords c6State.metric
      = ((List.range c5Mesh.NElements).map (fun e =>
          if c5Mesh.elemLive e then
            initQuality c5G c5Mesh c6State.coords c6State.metric e else 0)).sum
        / c5Mesh.NElements)
    ∧ optimisation_linf_3d_kernel c5G c5Mesh c6State 0 = (false, c6State) :=
  c6_good_q_and_linf_gate c5G c5Mesh c6State.coords c6State.metric c6State 0
    (by decide)
    (by
      intro e he
      have he0 : e = 0 := by simpa [c5Mesh] using he
      norm_num [he0, c6State])

/-! ### The smoothing driver Smooth3D::smooth -/

/-- Vertex of an element at local index `i % 4` (the `n[(j+k)%4]`
accesses of `init_cache`). -/

theorem c10_quality_tol_no_effect (G : Geom) (msh : SMesh)
    (colour : ℕ → ℤ) (method : String) (max_iterations : ℕ)
    (qt1 qt2 : ℚ) (coords0 : ℕ → Vec3) (metric0 : ℕ → Met6)
    (good_q0 : ℚ) :
    smooth G msh colour method max_iterations qt1 coords0 metric0 good_q0
      = smooth G msh colour method max_iterations qt2 coords0 metric0 good_q0 :=
  rfl

/-- A per-vertex visit function never touches the coordinates or metric of
a vertex other than the one it visits. -/

theorem laplacian_skips (G : Geom) (msh : SMesh) (v : ℕ) :
    SkipsAt (laplacian_3d_kernel G msh) v := by
  intro st node hne
  rw [laplacian_3d_kernel, laplacian_kernel_at]
  rcases generate_location_3d msh st.coords st.metric node
    (G.propose msh st.coords st.metric node) with _ | mp
  · exact ⟨rfl, rfl⟩
  · constructor
    · show (if v = node then _ else st.coords v) = st.coords v
      rw [if_neg (fun hc => hne hc.symm)]
    · show (if v = node then _ else st.metric v) = st.metric v
      rw [if_neg (fun hc => hne hc.symm)]

theorem smart_skips (G : Geom) (msh : SMesh) (v : ℕ) :
    SkipsAt (smart_laplacian_3d_kernel G msh) v := by
  intro st node hne
  rw [smart_laplacian_3d_kernel]
  split
  · exact ⟨rfl, rfl⟩
  · split
    · split
      · exact ⟨rfl, rfl⟩
      · constructor
        · show (if v = node then _ else st.coords v) = st.coords v
          rw [if_neg (fun hc => hne hc.symm)]
        · show (if v = node then _ else st.metric v) = st.metric v
          rw [if_neg (fun hc => hne hc.symm)]
    · exact ⟨rfl, rfl⟩

theorem linfSearch_skips (G : Geom) (msh : SMesh) (st : SState)
    (n0 : ℕ) (q : ℚ) (search : Vec3) (v : ℕ) (hne : n0 ≠ v) :
    ∀ (fuel : ℕ) (alpha : ℚ),
      (linfSearch G msh st n0 q search fuel alpha).2.coords v = st.coords v
      ∧ (linfSearch G msh st n0 q search fuel alpha).2.metric v
          = st.metric v := by
  intro fuel
  induction fuel with
  | zero => intro alpha; exact ⟨rfl, rfl⟩
  | succ k ih =>
    intro alpha
    rw [linfSearch]
    rcases generate_location_3d msh st.coords st.metric n0
      (axpy (st.coords n0) (alpha / 2) search) with _ | nm
    · exact ih (alpha / 2)
    · dsimp only
      split
      · constructor
        · show (if v = n0 then _ else st.coords v) = st.coords v
          rw [if_neg (fun hc => hne hc.symm)]
        · show (if v = n0 then _ else st.metric v) = st.metric v
          rw [if_neg (fun hc => hne hc.symm)]
      · exact ih (alpha / 2)

theorem linf_skips (G : Geom) (msh : SMesh) (v : ℕ) :
    SkipsAt (optimisation_linf_3d_kernel G msh) v := by
  intro st node hne
  rw [optimisation_linf_3d_kernel]
  rcases worstElement st.quality (msh.NEList node) with _ | ⟨q, we⟩
  · exact ⟨rfl, rfl⟩
  · dsimp only
    split
    · exact ⟨rfl, rfl⟩
    · exact linfSearch_skips G msh st node q _ v hne 10 _

theorem selectKernel_skips (G : Geom) (msh : SMesh) (method : String)
    (v : ℕ) : SkipsAt (selectKernel G msh method) v := by
  rw [selectKernel]
  split
  · exact laplacian_skips G msh v
  · split
    · exact smart_skips G msh v
    · exact linf_skips G msh v

theorem processNodeFirst_skips (kern : SState → ℕ → Bool × SState)
    (msh : SMesh) (v : ℕ) (hk : SkipsAt kern v) (st : SState) (node : ℕ)
    (hne : node ≠ v) :
    (processNodeFirst kern msh st node).coords v = st.coords v
    ∧ (processNodeFirst kern msh st node).metric v = st.metric v := by
  rw [processNodeFirst]
  split
  · rw [activateNeighbours]
    exact hk st node hne
  · exact hk st node hne

theorem processNodeLater_skips (kern : SState → ℕ → Bool × SState)
    (msh : SMesh) (v : ℕ) (hk : SkipsAt kern v) (st : SState) (node : ℕ)
    (hne : node ≠ v) :
    (processNodeLater kern msh st node).coords v = st.coords v
    ∧ (processNodeLater kern msh st node).metric v = st.metric v := by
  rw [processNodeLater]
  split
  · exact processNodeFirst_skips kern msh v hk _ node hne
  · exact ⟨rfl, rfl⟩

theorem foldl_visit_skips (pn : SState → ℕ → SState) (v : ℕ)
    (hpn : ∀ (st : SState) (node : ℕ), node ≠ v →
      (pn st node).coords v = st.coords v
      ∧ (pn st node).metric v = st.metric v) :
    ∀ (lst : List ℕ) (st : SState), (∀ n ∈ lst, n ≠ v) →
      (lst.foldl pn st).coords v = st.coords v
      ∧ (lst.foldl pn st).metric v = st.metric v := by
  intro lst
  induction lst with
  | nil => intro st _; exact ⟨rfl, rfl⟩
  | cons a rest ih =>
    intro st hlst
    rw [List.foldl_cons]
    have ha := hpn st a (hlst a (List.mem_cons_self a rest))
    have hrest := ih (pn st a) (fun n hn => hlst n (List.mem_cons_of_mem _ hn))
    exact ⟨hrest.1.trans ha.1, hrest.2.trans ha.2⟩

theorem colourMembers_ne (msh : SMesh) (colour : ℕ → ℤ) (ic : ℕ) (v : ℕ)
    (hv : smoothEligible msh colour v = false) :
    ∀ n ∈ colourMembers msh colour ic, n ≠ v := by
  intro n hn
  rw [colourMembers, List.mem_filter] at hn
  intro hcontra
  subst hcontra
  rcases Bool.and_eq_true .. ▸ hn.2 with ⟨_, helig⟩
  rw [hv] at helig
  exact Bool.false_ne_true helig

theorem sweepColours_skips (pn : SState → ℕ → SState) (msh : SMesh)
    (colour : ℕ → ℤ) (v : ℕ)
    (hpn : ∀ (st : SState) (node : ℕ), node ≠ v →
      (pn st node).coords v = st.coords v
      ∧ (pn st node).metric v = st.metric v)
    (hv : smoothEligible msh colour v = false) (st : SState) :
    (sweepColours pn msh colour st).coords v = st.coords v
    ∧ (sweepColours pn msh colour st).metric v = st.metric v := by
  rw [sweepColours]
  generalize List.range' 1 (maxColour msh colour).toNat = ics
  induction ics generalizing st with
  | nil => exact ⟨rfl, rfl⟩
  | cons ic rest ih =>
    rw [List.foldl_cons]
    have hinner := foldl_visit_skips pn v hpn (colourMembers msh colour ic)
      st (colourMembers_ne msh colour ic v hv)
    have hrest := ih ((colourMembers msh colour ic).foldl pn st)
    exact ⟨hrest.1.trans hinner.1, hrest.2.trans hinner.2⟩

theorem smoothIterate_skips (f : SState → SState) (v : ℕ)
    (hf : ∀ st : SState, (f st).coords v = st.coords v
      ∧ (f st).metric v = st.metric v) :
    ∀ (k : ℕ) (st : SState),
      (smoothIterate f k st).coords v = st.coords v
      ∧ (smoothIterate f k st).metric v = st.metric v := by
  intro k
  induction k with
  | zero => intro st; exact ⟨rfl, rfl⟩
  | succ n ih =>
    intro st
    rw [smoothIterate]
    have h1 := hf st
    have h2 := ih (f st)
    exact ⟨h2.1.trans h1.1, h2.2.trans h1.2⟩

/-- C9: a vertex that is on the boundary, or not owned, or has an empty
neighbour list is never entered into a colour set, so `Smooth3D::smooth`
leaves its coordinates and metric unchanged, for every method, iteration
count and quality tolerance. -/

theorem c9_frozen_vertices (G : Geom) (msh : SMesh) (colour : ℕ → ℤ)
    (method : String) (max_iterations : ℕ) (quality_tol : ℚ)
    (coords0 : ℕ → Vec3) (metric0 : ℕ → Met6) (good_q0 : ℚ) (v : ℕ)
    (hv : is_boundary_vertex msh v = true ∨ msh.owned v = false
      ∨ msh.NNList v = []) :
    (smooth G msh colour method max_iterations quality_tol coords0 metric0
        good_q0).coords v = coords0 v
    ∧ (smooth G msh colour method max_iterations quality_tol coords0 metric0
        good_q0).metric v = metric0 v := by
  have helig : smoothEligible msh colour v = false := by
    rw [smoothEligible]
    rcases hv with hb | ho | hn
    · rw [hb]
      simp
    · rw [ho]
      simp
    · rw [hn]
      simp
  have hk := selectKernel_skips G msh method v
  have hlater : ∀ (st : SState) (node : ℕ), node ≠ v →
      (processNodeLater (selectKernel G msh method) msh st node).coords v
        = st.coords v
      ∧ (processNodeLater (selectKernel G msh method) msh st node).metric v
        = st.metric v :=
    fun st node hne => processNodeLater_skips _ msh v hk st node hne
  have hfirst : ∀ (st : SState) (node : ℕ), node ≠ v →
      (processNodeFirst (selectKernel G msh method) msh st node).coords v
        = st.coords v
      ∧ (processNodeFirst (selectKernel G msh method) msh st node).metric v
        = st.metric v :=
    fun st node hne => processNodeFirst_skips _ msh v hk st node hne
  rw [smooth]
  have hiter := smoothIterate_skips
    (sweepColours (processNodeLater (selectKernel G msh method) msh) msh colour)
    v (fun st => sweepColours_skips _ msh colour v hlater helig st)
    (max_iterations - 1)
  have hsweep := sweepColours_skips
    (processNodeFirst (selectKernel G msh method) msh) msh colour v hfirst
    helig
  refine ⟨?_, ?_⟩
  · rw [(hiter _).1, (hsweep _).1]
  · rw [(hiter _).2, (hsweep _).2]

/-- Concrete data for the C9 witness: one live tetrahedron whose first
boundary face is flagged, so vertices 1, 2, 3 are boundary and vertex 0 is
not owned. -/

theorem c9_frozen_vertices_witness :
    (is_boundary_vertex c9Mesh 1 = true ∨ c9Mesh.owned 1 = false
      ∨ c9Mesh.NNList 1 = [])
    ∧ (smooth c5G c9Mesh (fun _ => 1) "Laplacian" 2 (-1)
        c5State.coords c5State.metric 0).coords 1 = c5State.coords 1
    ∧ (smooth c5G c9Mesh (fun _ => 1) "Laplacian" 2 (-1)
        c5State.coords c5State.metric 0).metric 1 = c5State.metric 1 :=
  ⟨Or.inl (by decide),
   (c9_frozen_vertices c5G c9Mesh (fun _ => 1) "Laplacian" 2 (-1)
     c5State.coords c5State.metric 0 1 (Or.inl (by decide))).1,
   (c9_frozen_vertices c5G c9Mesh (fun _ => 1) "Laplacian" 2 (-1)
     c5State.coords c5State.metric 0 1 (Or.inl (by decide))).2⟩

end Pragmatic
